import Mathlib

/-!
# Formal model of `main.py` (one-way folder synchronizer)

The program keeps a replica directory tree mirroring a source tree:

* `synchronize_folders` walks the source tree (`rglob('*')`, parents before
  children), copying files (`shutil.copy2`) and creating directories
  (`Path.mkdir(parents=True)`), then walks the replica tree deleting every
  entry whose mirrored source path does not exist (`unlink` / `shutil.rmtree`).
* `write_stats_to_logging_file` emits the counters joined as `key = value`
  pairs and resets every counter to zero.
* `main` checks that both roots exist, then repeats pass / report / sleep.

We model each root as a snapshot association list from relative paths
(component lists) to entries, listed in the order `rglob` yields them
(every ancestor before its descendants).  A pass carries the live replica,
the counter dictionary and the emitted log.  `shutil.copy2` is modelled with
its real semantics: it copies size and mtime, overwrites an existing file,
copies *into* a destination that is a directory (using the source basename),
and fails (caught by the bare `except:`) when the destination parent is
missing or not a directory, or when the final destination is a directory.
-/

namespace FolderSync

/-- A path relative to a synchronisation root: its list of components.
`replica_root / relative(entry, source_root)` and the source entry share
this relative path, so both trees are indexed by it. -/
abbrev Path := List String

/-- A filesystem entry as observed by `os.stat`: a regular file with
`st_size` and `st_mtime`, or a directory. -/
inductive Entry : Type
  | file (size : Nat) (mtime : Nat)
  | dir
deriving Repr, DecidableEq

/-- `st_size` reported by `stat` on a directory (filesystem dependent;
a fixed representative value, only read in the file-vs-directory
mismatch branch of the update check). -/
def dirStSize : Nat := 4096

/-- `st_mtime` reported by `stat` on a directory (only read in the
file-vs-directory mismatch branch of the update check). -/
def dirStMtime : Nat := 0

/-- `.stat().st_size` of an entry. -/
def Entry.stSize : Entry → Nat
  | .file s _ => s
  | .dir => dirStSize

/-- `.stat().st_mtime` of an entry. -/
def Entry.stMtime : Entry → Nat
  | .file _ m => m
  | .dir => dirStMtime

/-- `.is_file()` of an entry. -/
def Entry.isFile : Entry → Bool
  | .file _ _ => true
  | .dir => false

/-- One directory tree: the entries below the root, keyed by relative path,
listed in the order `Path.rglob('*')` yields them (a directory is always
listed before anything beneath it). -/
abbrev FS := List (Path × Entry)

/-- `(root / p).exists()` data: the entry at relative path `p`, if any. -/
def lookup : FS → Path → Option Entry
  | [], _ => none
  | pr :: rest, p => if pr.1 = p then some pr.2 else lookup rest p

/-- The relative paths of all entries of the tree, in `rglob` order. -/
def keys (fs : FS) : List Path := fs.map Prod.fst

/-- Write entry `e` at path `p`: overwrite the existing entry, or add a new
one (a new entry is yielded after its parent by a later `rglob`, matching
the append position). -/
def setEntry : FS → Path → Entry → FS
  | [], p, e => [(p, e)]
  | pr :: rest, p, e => if pr.1 = p then (p, e) :: rest else pr :: setEntry rest p e

/-- `Path.unlink()`: remove the single entry at `p`. -/
def eraseEntry : FS → Path → FS
  | [], _ => []
  | pr :: rest, p => if pr.1 = p then eraseEntry rest p else pr :: eraseEntry rest p

/-- `shutil.rmtree(p)`: remove the entry at `p` and its whole subtree. -/
def eraseTree : FS → Path → FS
  | [], _ => []
  | pr :: rest, p =>
    if p.isPrefixOf pr.1 then eraseTree rest p else pr :: eraseTree rest p

/-- Whether the directory that must directly contain path `p` exists:
either `p` is a top-level entry (its parent is the replica root itself) or
its parent path is an existing directory.  `open(dst, 'wb')` inside
`shutil.copyfile` fails otherwise (`FileNotFoundError` / `NotADirectoryError`). -/
def parentDirOk (fs : FS) (p : Path) : Bool :=
  match p.dropLast with
  | [] => true
  | _ :: _ =>
    match lookup fs p.dropLast with
    | some .dir => true
    | _ => false

/-- `shutil.copy2(source_root / src, replica_root / dst)` for a source file
of size `sz` and mtime `mt` (`src` and `dst` are the same relative path, so
`os.path.basename(src)` is `dst`'s last component).  Semantics of `copy2`:
if the destination is a directory the file is copied into it under the
source basename; copying onto a directory or into a missing / non-directory
parent raises (swallowed by the caller's bare `except:`); otherwise the
destination file is created or overwritten and `copystat` transfers the
mtime. -/
def copy2 (fs : FS) (dst : Path) (sz mt : Nat) : Option FS :=
  let target : Path :=
    match lookup fs dst with
    | some .dir => dst ++ [dst.getLastD ""]
    | _ => dst
  match lookup fs target with
  | some .dir => none
  | some (.file _ _) => some (setEntry fs target (.file sz mt))
  | none => if parentDirOk fs target then some (setEntry fs target (.file sz mt)) else none

/-- `True` at `k = 0` or when the ancestor `p.take k` is not a regular file
(an ancestor that is an existing file makes `mkdir(parents=True)` raise
`NotADirectoryError` / `FileExistsError`). -/
def ancestorsNotFiles (fs : FS) (p : Path) : Bool :=
  (List.range p.length).all fun k =>
    k == 0 ||
      (match lookup fs (p.take k) with
       | some (.file _ _) => false
       | _ => true)

/-- The directories actually written by `mkdir(parents=True)`: every
missing prefix of `p`, shortest first. -/
def mkdirCreate (fs : FS) (p : Path) : FS :=
  (List.range p.length).foldl
    (fun acc k =>
      if (lookup acc (p.take (k + 1))).isSome then acc
      else setEntry acc (p.take (k + 1)) .dir)
    fs

/-- `Path.mkdir(parents=True)` at relative path `p`: fails if `p` already
exists (`FileExistsError`) or an ancestor is a regular file; otherwise
creates every missing prefix of `p` as a directory. -/
def mkdir_parents (fs : FS) (p : Path) : Option FS :=
  match lookup fs p with
  | some _ => none
  | none => if ancestorsNotFiles fs p then some (mkdirCreate fs p) else none

/-- The `changes_stats` dictionary built in `main` (field order is the
dict's insertion order). -/
structure Stats : Type where
  /-- `"Files created"` -/
  filesCreated : Nat
  /-- `"Files changed/copied"` -/
  filesChangedCopied : Nat
  /-- `"Directories created"` -/
  directoriesCreated : Nat
  /-- `"Files deleted"` -/
  filesDeleted : Nat
  /-- `"Directories deleted"` -/
  directoriesDeleted : Nat
deriving Repr, DecidableEq

/-- All counters zero, as initialised in `main`. -/
def Stats.zero : Stats := ⟨0, 0, 0, 0, 0⟩

/-- Componentwise sum of two counter dictionaries. -/
def Stats.add (a b : Stats) : Stats :=
  ⟨a.filesCreated + b.filesCreated,
   a.filesChangedCopied + b.filesChangedCopied,
   a.directoriesCreated + b.directoriesCreated,
   a.filesDeleted + b.filesDeleted,
   a.directoriesDeleted + b.directoriesDeleted⟩

/-- One line sent to the logger.  Each constructor records the message's
relative path; the `failed*` constructors are the `logger.error` calls in
the `except:` handlers, the `*FolderMissing` ones the errors of
`check_folders_existence`, the rest are `logger.info` calls. -/
inductive LogEvent : Type
  | createdCopied (p : Path)
  | copied (p : Path)
  | createdDirectory (p : Path)
  | deletedFile (p : Path)
  | deletedDirectory (p : Path)
  | failedCopy (p : Path)
  | failedCreateDirectory (p : Path)
  | failedDeleteFile (p : Path)
  | failedDeleteDirectory (p : Path)
  | sourceFolderMissing (name : String)
  | replicaFolderMissing (name : String)
deriving Repr, DecidableEq

/-- Whether the line was logged at ERROR level. -/
def LogEvent.isError : LogEvent → Bool
  | .failedCopy _ => true
  | .failedCreateDirectory _ => true
  | .failedDeleteFile _ => true
  | .failedDeleteDirectory _ => true
  | .sourceFolderMissing _ => true
  | .replicaFolderMissing _ => true
  | _ => false

/-- The mutable state threaded through one `synchronize_folders` call:
the live replica tree, the `changes_stats` dictionary and the log. -/
structure PassState : Type where
  replica : FS
  stats : Stats
  log : List LogEvent
deriving Repr, DecidableEq

/-- The body of the first loop of `synchronize_folders` for the source
entry at relative path `p` (the source tree is not modified during a pass,
so reading it live and from the snapshot agree).  Mirrors the
`is_file()` / `is_dir()` branches, the `exists()` / stat comparisons on the
live replica, and the bare `except:` handlers. -/
def syncSourceEntry (source : FS) (st : PassState) (p : Path) : PassState :=
  match lookup source p with
  | some (.file sz mt) =>
    match lookup st.replica p with
    | none =>
      match copy2 st.replica p sz mt with
      | some r =>
        { replica := r,
          stats := { st.stats with filesCreated := st.stats.filesCreated + 1 },
          log := st.log ++ [.createdCopied p] }
      | none => { st with log := st.log ++ [.failedCopy p] }
    | some e =>
      if sz ≠ e.stSize ∨ mt > e.stMtime then
        match copy2 st.replica p sz mt with
        | some r =>
          { replica := r,
            stats :=
              { st.stats with filesChangedCopied := st.stats.filesChangedCopied + 1 },
            log := st.log ++ [.copied p] }
        | none => { st with log := st.log ++ [.failedCopy p] }
      else st
  | some .dir =>
    match lookup st.replica p with
    | some _ => st
    | none =>
      match mkdir_parents st.replica p with
      | some r =>
        { replica := r,
          stats :=
            { st.stats with directoriesCreated := st.stats.directoriesCreated + 1 },
          log := st.log ++ [.createdDirectory p] }
      | none => { st with log := st.log ++ [.failedCreateDirectory p] }
  | none => st

/-- The body of the second loop of `synchronize_folders` for the replica
snapshot entry at relative path `p`: `is_file()` / `is_dir()` are read from
the live replica (an entry already removed by an earlier `rmtree` matches
neither branch), and deletion happens only when the mirrored source path
does not exist. -/
def syncReplicaEntry (source : FS) (st : PassState) (p : Path) : PassState :=
  match lookup st.replica p with
  | some (.file _ _) =>
    match lookup source p with
    | none =>
      { replica := eraseEntry st.replica p,
        stats := { st.stats with filesDeleted := st.stats.filesDeleted + 1 },
        log := st.log ++ [.deletedFile p] }
    | some _ => st
  | some .dir =>
    match lookup source p with
    | none =>
      { replica := eraseTree st.replica p,
        stats :=
          { st.stats with directoriesDeleted := st.stats.directoriesDeleted + 1 },
        log := st.log ++ [.deletedDirectory p] }
    | some _ => st
  | none => st

/-- First loop of `synchronize_folders`: walk every source entry. -/
def runLoop1 (source : FS) (st : PassState) : PassState :=
  (keys source).foldl (syncSourceEntry source) st

/-- Second loop of `synchronize_folders`: walk the replica snapshot taken
after the first loop finished. -/
def runLoop2 (source : FS) (st : PassState) : PassState :=
  (keys st.replica).foldl (syncReplicaEntry source) st

/-- One synchronisation pass: the two walks of `synchronize_folders`. -/
def synchronize_folders (source : FS) (st : PassState) : PassState :=
  runLoop2 source (runLoop1 source st)

/-- `write_stats_to_logging_file`: returns the `"; "`-joined
`key = value` line handed to `logger.info` (the code appends a final
newline to the message) and the dictionary after every counter has been
set back to `0`. -/
def write_stats_to_logging_file (changes_stats : Stats) : String × Stats :=
  (String.intercalate "; "
      ["Files created = " ++ toString changes_stats.filesCreated,
       "Files changed/copied = " ++ toString changes_stats.filesChangedCopied,
       "Directories created = " ++ toString changes_stats.directoriesCreated,
       "Files deleted = " ++ toString changes_stats.filesDeleted,
       "Directories deleted = " ++ toString changes_stats.directoriesDeleted],
   Stats.zero)

/-- `check_folders_existence`: `True` only when both roots exist, logging
an error naming a missing folder otherwise (when both are missing only the
source folder is reported, as in the code's `else` branch). -/
def check_folders_existence (sourceExists replicaExists : Bool)
    (sourceName replicaName : String) : Bool × List LogEvent :=
  if sourceExists && replicaExists then (true, [])
  else if sourceExists then (false, [.replicaFolderMissing replicaName])
  else (false, [.sourceFolderMissing sourceName])

/-- The sleep interval in seconds computed in `main`:
`interval * 24 * 60 * 60` when `--days` is passed, `interval * 60`
otherwise (minutes are the default). -/
def interval_seconds (amount : Nat) (days : Bool) : Nat :=
  if days then amount * 24 * 60 * 60 else amount * 60

/-- One iteration of the `while True:` body of `main`:
`synchronize_folders` then `write_stats_to_logging_file` (which zeroes
the counters); the subsequent `time.sleep` does not change the state. -/
def loop_iteration (source : FS) (st : PassState) : PassState :=
  let st1 := synchronize_folders source st
  { st1 with stats := (write_stats_to_logging_file st1.stats).2 }

/-- The state after `n` iterations of the scheduler loop. -/
def run_main_loop (source : FS) (st : PassState) : Nat → PassState
  | 0 => st
  | n + 1 => run_main_loop source (loop_iteration source st) n

/-- `main` after argument parsing: if the existence check fails the sync
loop is never entered (`none`); otherwise the state after `n` loop
iterations, starting from the all-zero `changes_stats` dictionary. -/
def main_model (sourceExists replicaExists : Bool) (sourceName replicaName : String)
    (source replica : FS) (n : Nat) : Option PassState :=
  if (check_folders_existence sourceExists replicaExists sourceName replicaName).1 then
    some (run_main_loop source ⟨replica, Stats.zero, []⟩ n)
  else none

/-- No key of the list is a proper prefix of an earlier key: `rglob`
yields a directory before anything beneath it. -/
def ancestorsFirst : List Path → Bool
  | [] => true
  | p :: rest => (rest.all fun q => !(q.isPrefixOf p && !(q == p))) && ancestorsFirst rest

/-- Well-formedness of a tree snapshot, true of every real directory tree:
keys are distinct non-root paths, every proper ancestor of a key is itself
a key holding a directory, and ancestors are listed first. -/
def WF (fs : FS) : Prop :=
  (keys fs).Nodup ∧
  (∀ pr ∈ fs, pr.1 ≠ []) ∧
  (∀ pr ∈ fs, ∀ k, k < pr.1.length → 0 < k → lookup fs (pr.1.take k) = some .dir) ∧
  ancestorsFirst (keys fs) = true

/-- No relative path is a file in one tree and a directory in the other
(quantified over listed entries, so it is decidable on snapshots). -/
def noKindMismatch (source replica : FS) : Prop :=
  ∀ pr ∈ source, ((lookup replica pr.1).all fun er => pr.2.isFile == er.isFile) = true

instance (fs : FS) : Decidable (WF fs) := by
  unfold WF; infer_instance

instance (source replica : FS) : Decidable (noKindMismatch source replica) := by
  unfold noKindMismatch; infer_instance

/-- The relation the first walk establishes at a processed source path `p`:
a source file has been copied (replica holds its size and mtime), unless
the original replica already had a file of equal size and no older mtime,
which is left untouched; a source directory exists in the replica. -/
def SyncedAfter (source replica0 : FS) (p : Path) (r : FS) : Prop :=
  match lookup source p with
  | some (.file sz mt) =>
      lookup r p = some (.file sz mt) ∨
      ∃ m2, lookup replica0 p = some (.file sz m2) ∧ mt ≤ m2 ∧
        lookup r p = some (.file sz m2)
  | some .dir => lookup r p = some .dir
  | none => True

/-- Invariant of the first walk over a well-formed source with no
file/directory kind clash against the original replica `replica0`, after
the source keys in `done` have been processed: unprocessed paths are
untouched, processed paths are synced, no replica key is the root, and the
walk has logged no errors beyond those already in `l0`. -/
structure Loop1Inv (source replica0 : FS) (l0 : List LogEvent) (done : List Path)
    (st : PassState) : Prop where
  untouched : ∀ q, q ∉ done → lookup st.replica q = lookup replica0 q
  synced : ∀ p ∈ done, SyncedAfter source replica0 p st.replica
  keysNe : ∀ pr ∈ st.replica, pr.1 ≠ []
  errs : ∀ ev ∈ st.log, ev.isError = true → ev ∈ l0

end FolderSync
namespace FolderSync

theorem lookup_setEntry (fs : FS) (p : Path) (e : Entry) (q : Path) :
    lookup (setEntry fs p e) q = if q = p then some e else lookup fs q := by
  induction fs with
  | nil =>
    simp only [setEntry, lookup]
    by_cases h : q = p
    · simp [h]
    · have h' : ¬ p = q := fun hh => h hh.symm
      simp [h, h']
  | cons pr rest ih =>
    simp only [setEntry]
    by_cases h1 : pr.1 = p
    · by_cases h2 : q = p
      · simp [lookup, h1, h2]
      · have h' : ¬ p = q := fun hh => h2 hh.symm
        have h'' : ¬ pr.1 = q := fun hh => h2 (h1 ▸ hh).symm
        simp [lookup, h1, h2, h', h'']
    · by_cases h2 : pr.1 = q
      · have h' : ¬ q = p := fun hh => h1 (h2.trans hh)
        simp [lookup, h1, h2, h']
      · simp [lookup, h1, h2, ih]

theorem lookup_eraseEntry (fs : FS) (p q : Path) :
    lookup (eraseEntry fs p) q = if q = p then none else lookup fs q := by
  induction fs with
  | nil => simp [eraseEntry, lookup]
  | cons pr rest ih =>
    simp only [eraseEntry]
    by_cases h1 : pr.1 = p
    · rw [if_pos h1, ih]
      by_cases h2 : q = p
      · simp [h2]
      · have h'' : ¬ pr.1 = q := fun hh => h2 ((h1 ▸ hh).symm)
        simp [lookup, h2, h'']
    · rw [if_neg h1]
      by_cases h2 : pr.1 = q
      · have h' : ¬ q = p := fun hh => h1 (h2.trans hh)
        simp [lookup, h2, h']
      · simp [lookup, h2, ih]

theorem isPrefixOf_eq_true_iff (p q : Path) :
    p.isPrefixOf q = true ↔ ∃ t, p ++ t = q := by
  induction p generalizing q with
  | nil => simp [List.isPrefixOf]
  | cons a p ih =>
    cases q with
    | nil => simp [List.isPrefixOf]
    | cons b q =>
      simp only [List.isPrefixOf, Bool.and_eq_true, beq_iff_eq, ih, List.cons_append,
        List.cons.injEq]
      constructor
      · rintro ⟨rfl, t, rfl⟩; exact ⟨t, rfl, rfl⟩
      · rintro ⟨t, rfl, rfl⟩; exact ⟨rfl, t, rfl⟩

theorem isPrefixOf_self (p : Path) : p.isPrefixOf p = true := by
  rw [isPrefixOf_eq_true_iff]; exact ⟨[], List.append_nil p⟩

theorem take_isPrefixOf (p : Path) (k : Nat) : (p.take k).isPrefixOf p = true := by
  rw [isPrefixOf_eq_true_iff]; exact ⟨p.drop k, List.take_append_drop k p⟩

theorem lookup_eraseTree_of_isPrefixOf (fs : FS) (p q : Path)
    (h : p.isPrefixOf q = true) : lookup (eraseTree fs p) q = none := by
  induction fs with
  | nil => simp [eraseTree, lookup]
  | cons pr rest ih =>
    simp only [eraseTree]
    by_cases h1 : p.isPrefixOf pr.1
    · simp [h1, ih]
    · have : ¬ pr.1 = q := by
        intro hh; rw [hh] at h1; exact h1 h
      simp [lookup, h1, this, ih]

theorem lookup_eraseTree_of_not_isPrefixOf (fs : FS) (p q : Path)
    (h : p.isPrefixOf q = false) : lookup (eraseTree fs p) q = lookup fs q := by
  induction fs with
  | nil => simp [eraseTree]
  | cons pr rest ih =>
    simp only [eraseTree]
    by_cases h1 : p.isPrefixOf pr.1
    · have : ¬ pr.1 = q := by
        intro hh; rw [hh] at h1; rw [h1] at h; cases h
      simp [lookup, h1, this, ih]
    · simp [lookup, h1, ih]

theorem mem_setEntry (fs : FS) (p : Path) (e : Entry) (pr : Path × Entry)
    (h : pr ∈ setEntry fs p e) : pr ∈ fs ∨ pr = (p, e) := by
  induction fs with
  | nil => simp [setEntry] at h; simp [h]
  | cons hd rest ih =>
    simp only [setEntry] at h
    by_cases h1 : hd.1 = p
    · rw [if_pos h1] at h
      rcases List.mem_cons.mp h with h2 | h2
      · right; exact h2
      · left; exact List.mem_cons_of_mem _ h2
    · rw [if_neg h1] at h
      rcases List.mem_cons.mp h with h2 | h2
      · left; simp [h2]
      · rcases ih h2 with h3 | h3
        · left; exact List.mem_cons_of_mem _ h3
        · right; exact h3

theorem mem_eraseEntry (fs : FS) (p : Path) (pr : Path × Entry)
    (h : pr ∈ eraseEntry fs p) : pr ∈ fs := by
  induction fs with
  | nil => simp [eraseEntry] at h
  | cons hd rest ih =>
    simp only [eraseEntry] at h
    by_cases h1 : hd.1 = p
    · rw [if_pos h1] at h; exact List.mem_cons_of_mem _ (ih h)
    · rw [if_neg h1] at h
      rcases List.mem_cons.mp h with h2 | h2
      · simp [h2]
      · exact List.mem_cons_of_mem _ (ih h2)

theorem mem_eraseTree (fs : FS) (p : Path) (pr : Path × Entry)
    (h : pr ∈ eraseTree fs p) : pr ∈ fs := by
  induction fs with
  | nil => simp [eraseTree] at h
  | cons hd rest ih =>
    simp only [eraseTree] at h
    by_cases h1 : p.isPrefixOf hd.1
    · rw [if_pos h1] at h; exact List.mem_cons_of_mem _ (ih h)
    · rw [if_neg h1] at h
      rcases List.mem_cons.mp h with h2 | h2
      · simp [h2]
      · exact List.mem_cons_of_mem _ (ih h2)

theorem lookup_mem (fs : FS) (p : Path) (e : Entry) (h : lookup fs p = some e) :
    (p, e) ∈ fs := by
  induction fs with
  | nil => simp [lookup] at h
  | cons pr rest ih =>
    simp only [lookup] at h
    by_cases h1 : pr.1 = p
    · rw [if_pos h1] at h
      cases h
      obtain ⟨a, b⟩ := pr
      cases h1
      exact List.mem_cons_self _ _
    · rw [if_neg h1] at h
      exact List.mem_cons_of_mem _ (ih h)

theorem keys_cons (pr : Path × Entry) (rest : FS) :
    keys (pr :: rest) = pr.1 :: keys rest := rfl

theorem lookup_isSome_iff_mem_keys (fs : FS) (p : Path) :
    (lookup fs p).isSome = true ↔ p ∈ keys fs := by
  induction fs with
  | nil => simp [lookup, keys]
  | cons pr rest ih =>
    rw [keys_cons, List.mem_cons]
    simp only [lookup]
    by_cases h1 : pr.1 = p
    · subst h1; simp
    · have h' : ¬ p = pr.1 := fun hh => h1 hh.symm
      rw [if_neg h1]
      exact ih.trans (by simp [h'])

theorem lookup_eq_of_mem_nodup (fs : FS) (p : Path) (e : Entry)
    (hmem : (p, e) ∈ fs) (hnd : (keys fs).Nodup) : lookup fs p = some e := by
  induction fs with
  | nil => simp at hmem
  | cons pr rest ih =>
    simp only [keys, List.map_cons, List.nodup_cons] at hnd
    rcases List.mem_cons.mp hmem with h1 | h1
    · simp [lookup, ← h1]
    · have hp : p ∈ keys rest := List.mem_map_of_mem Prod.fst h1
      have : ¬ pr.1 = p := by
        intro hh; rw [hh] at hnd; exact hnd.1 hp
      simp [lookup, this, ih h1 hnd.2]

end FolderSync
namespace FolderSync

theorem copy2_of_lookup_none (fs : FS) (dst : Path) (sz mt : Nat)
    (h : lookup fs dst = none) (hp : parentDirOk fs dst = true) :
    copy2 fs dst sz mt = some (setEntry fs dst (.file sz mt)) := by
  simp [copy2, h, hp]

theorem copy2_of_lookup_file (fs : FS) (dst : Path) (sz mt s m : Nat)
    (h : lookup fs dst = some (.file s m)) :
    copy2 fs dst sz mt = some (setEntry fs dst (.file sz mt)) := by
  simp [copy2, h]

theorem copy2_of_no_parent (fs : FS) (dst : Path) (sz mt : Nat)
    (h : lookup fs dst = none) (hp : parentDirOk fs dst = false) :
    copy2 fs dst sz mt = none := by
  simp [copy2, h, hp]

/-- Any successful `copy2` writes a file at either the destination path or
(destination a directory) at a child of it, and never on top of a directory. -/
theorem copy2_spec (fs : FS) (dst : Path) (sz mt : Nat) (r : FS)
    (hc : copy2 fs dst sz mt = some r) :
    ∃ target, (target = dst ∨ target = dst ++ [dst.getLastD ""]) ∧
      (∀ e, lookup fs target = some e → e.isFile = true) ∧
      r = setEntry fs target (.file sz mt) := by
  rcases h1 : lookup fs dst with _ | e
  · refine ⟨dst, Or.inl rfl, ?_, ?_⟩
    · intro e he; rw [h1] at he; cases he
    · simp only [copy2, h1] at hc
      by_cases hp : parentDirOk fs dst = true
      · rw [if_pos hp] at hc; cases hc; rfl
      · rw [if_neg hp] at hc; cases hc
  · cases e with
    | file s m =>
      refine ⟨dst, Or.inl rfl, ?_, ?_⟩
      · intro e he; rw [h1] at he; cases he; rfl
      · simp only [copy2, h1] at hc
        cases hc; rfl
    | dir =>
      refine ⟨dst ++ [dst.getLastD ""], Or.inr rfl, ?_, ?_⟩
      · intro e he
        simp only [copy2, h1, he] at hc
        cases e with
        | file s2 m2 => rfl
        | dir => simp at hc
      · simp only [copy2, h1] at hc
        rcases h2 : lookup fs (dst ++ [dst.getLastD ""]) with _ | e2
        · simp only [h2] at hc
          by_cases hp : parentDirOk fs (dst ++ [dst.getLastD ""]) = true
          · rw [if_pos hp] at hc; cases hc; rfl
          · rw [if_neg hp] at hc; cases hc
        · simp only [h2] at hc
          cases e2 with
          | file s2 m2 => cases hc; rfl
          | dir => cases hc

/-- A successful `copy2` preserves the presence and the kind of every entry
that was already present. -/
theorem copy2_preserves_kind (fs : FS) (dst : Path) (sz mt : Nat) (r : FS)
    (hc : copy2 fs dst sz mt = some r) (q : Path) (e : Entry)
    (h : lookup fs q = some e) :
    ∃ e2, lookup r q = some e2 ∧ e2.isFile = e.isFile := by
  obtain ⟨target, _, hk, rfl⟩ := copy2_spec fs dst sz mt _ hc
  rw [lookup_setEntry]
  by_cases hq : q = target
  · subst hq
    exact ⟨.file sz mt, if_pos rfl, (hk e h).symm⟩
  · rw [if_neg hq]; exact ⟨e, h, rfl⟩

theorem foldl_mkdirStep_lookup (p : Path) (l : List Nat) (fs : FS) (q : Path)
    (h : (lookup fs q).isSome = true) :
    lookup (l.foldl (fun acc k =>
        if (lookup acc (p.take (k + 1))).isSome then acc
        else setEntry acc (p.take (k + 1)) .dir) fs) q = lookup fs q := by
  induction l generalizing fs with
  | nil => rfl
  | cons k rest ih =>
    simp only [List.foldl_cons]
    by_cases hk : (lookup fs (p.take (k + 1))).isSome = true
    · rw [if_pos hk]; exact ih fs h
    · rw [if_neg hk]
      have hne : ¬ q = p.take (k + 1) := by
        intro hh; rw [hh] at h; exact hk h
      have h2 : lookup (setEntry fs (p.take (k + 1)) .dir) q = lookup fs q := by
        rw [lookup_setEntry]; exact if_neg hne
      rw [ih _ (by rw [h2]; exact h)]
      exact h2

/-- `mkdir(parents=True)` never touches an entry that already exists. -/
theorem lookup_mkdirCreate_of_isSome (fs : FS) (p q : Path)
    (h : (lookup fs q).isSome = true) : lookup (mkdirCreate fs p) q = lookup fs q :=
  foldl_mkdirStep_lookup p (List.range p.length) fs q h

theorem foldl_mkdirStep_skip (p : Path) (l : List Nat) (fs : FS)
    (h : ∀ k ∈ l, (lookup fs (p.take (k + 1))).isSome = true) :
    l.foldl (fun acc k =>
        if (lookup acc (p.take (k + 1))).isSome then acc
        else setEntry acc (p.take (k + 1)) .dir) fs = fs := by
  induction l with
  | nil => rfl
  | cons k rest ih =>
    simp only [List.foldl_cons]
    rw [if_pos (h k (List.mem_cons_self k rest))]
    exact ih fun k2 hk2 => h k2 (List.mem_cons_of_mem _ hk2)

/-- When every proper ancestor of `p` already exists as a directory and `p`
itself is missing, `mkdir(parents=True)` creates exactly the directory `p`. -/
theorem mkdir_parents_eq_setEntry (fs : FS) (p : Path)
    (hnil : p ≠ [])
    (hanc : ∀ k, k < p.length → 0 < k → lookup fs (p.take k) = some .dir)
    (hnone : lookup fs p = none) :
    mkdir_parents fs p = some (setEntry fs p .dir) := by
  have hlen : 0 < p.length := List.length_pos.mpr hnil
  have hfiles : ancestorsNotFiles fs p = true := by
    rw [ancestorsNotFiles, List.all_eq_true]
    intro k hk
    rw [List.mem_range] at hk
    by_cases h0 : k = 0
    · simp [h0]
    · rw [hanc k hk (Nat.pos_of_ne_zero h0)]
      simp
  obtain ⟨m, hm⟩ : ∃ m, p.length = m + 1 := ⟨p.length - 1, (Nat.succ_pred_eq_of_pos hlen).symm⟩
  have hcreate : mkdirCreate fs p = setEntry fs p .dir := by
    rw [mkdirCreate, hm, List.range_succ, List.foldl_append]
    rw [foldl_mkdirStep_skip p (List.range m) fs ?_]
    · simp only [List.foldl_cons, List.foldl_nil]
      have htake : p.take (m + 1) = p := by
        rw [← hm]; exact List.take_length p
      rw [htake, hnone]
      simp
    · intro k hk
      rw [List.mem_range] at hk
      rw [hanc (k + 1) (by omega) (Nat.succ_pos k)]
      rfl
  rw [mkdir_parents, hnone, if_pos hfiles, hcreate]

theorem mem_mkdirCreate (fs : FS) (p : Path) (pr : Path × Entry)
    (h : pr ∈ mkdirCreate fs p) :
    pr ∈ fs ∨ ∃ k, pr = (p.take (k + 1), Entry.dir) := by
  rw [mkdirCreate] at h
  generalize List.range p.length = l at h
  induction l generalizing fs with
  | nil => exact Or.inl h
  | cons k rest ih =>
    simp only [List.foldl_cons] at h
    by_cases hk : (lookup fs (p.take (k + 1))).isSome = true
    · rw [if_pos hk] at h; exact ih fs h
    · rw [if_neg hk] at h
      rcases ih _ h with h2 | h2
      · rcases mem_setEntry fs (p.take (k + 1)) .dir pr h2 with h3 | h3
        · exact Or.inl h3
        · exact Or.inr ⟨k, h3⟩
      · exact Or.inr h2

end FolderSync
namespace FolderSync

theorem mkdir_parents_some (fs : FS) (p : Path) (r : FS)
    (h : mkdir_parents fs p = some r) : r = mkdirCreate fs p := by
  rw [mkdir_parents] at h
  rcases h1 : lookup fs p with _ | e
  · simp only [h1] at h
    split at h
    · cases h; rfl
    · cases h
  · simp only [h1] at h
    cases h

theorem syncSourceEntry_file_create (source : FS) (st : PassState) (p : Path) (sz mt : Nat)
    (hs : lookup source p = some (.file sz mt)) (hr : lookup st.replica p = none)
    (r : FS) (hc : copy2 st.replica p sz mt = some r) :
    syncSourceEntry source st p =
      { replica := r,
        stats := { st.stats with filesCreated := st.stats.filesCreated + 1 },
        log := st.log ++ [.createdCopied p] } := by
  simp [syncSourceEntry, hs, hr, hc]

theorem syncSourceEntry_file_create_fail (source : FS) (st : PassState) (p : Path)
    (sz mt : Nat) (hs : lookup source p = some (.file sz mt))
    (hr : lookup st.replica p = none) (hc : copy2 st.replica p sz mt = none) :
    syncSourceEntry source st p = { st with log := st.log ++ [.failedCopy p] } := by
  simp [syncSourceEntry, hs, hr, hc]

theorem syncSourceEntry_file_update (source : FS) (st : PassState) (p : Path) (sz mt : Nat)
    (hs : lookup source p = some (.file sz mt)) (e : Entry)
    (hr : lookup st.replica p = some e) (hcond : sz ≠ e.stSize ∨ mt > e.stMtime)
    (r : FS) (hc : copy2 st.replica p sz mt = some r) :
    syncSourceEntry source st p =
      { replica := r,
        stats := { st.stats with filesChangedCopied := st.stats.filesChangedCopied + 1 },
        log := st.log ++ [.copied p] } := by
  simp only [syncSourceEntry, hs, hr]
  rw [if_pos hcond, hc]

theorem syncSourceEntry_file_update_fail (source : FS) (st : PassState) (p : Path)
    (sz mt : Nat) (hs : lookup source p = some (.file sz mt)) (e : Entry)
    (hr : lookup st.replica p = some e) (hcond : sz ≠ e.stSize ∨ mt > e.stMtime)
    (hc : copy2 st.replica p sz mt = none) :
    syncSourceEntry source st p = { st with log := st.log ++ [.failedCopy p] } := by
  simp only [syncSourceEntry, hs, hr]
  rw [if_pos hcond, hc]

theorem syncSourceEntry_file_skip (source : FS) (st : PassState) (p : Path) (sz mt : Nat)
    (hs : lookup source p = some (.file sz mt)) (e : Entry)
    (hr : lookup st.replica p = some e) (hcond : ¬(sz ≠ e.stSize ∨ mt > e.stMtime)) :
    syncSourceEntry source st p = st := by
  simp only [syncSourceEntry, hs, hr]
  rw [if_neg hcond]

theorem syncSourceEntry_dir_skip (source : FS) (st : PassState) (p : Path)
    (hs : lookup source p = some .dir) (e : Entry) (hr : lookup st.replica p = some e) :
    syncSourceEntry source st p = st := by
  simp [syncSourceEntry, hs, hr]

theorem syncSourceEntry_dir_create (source : FS) (st : PassState) (p : Path)
    (hs : lookup source p = some .dir) (hr : lookup st.replica p = none)
    (r : FS) (hm : mkdir_parents st.replica p = some r) :
    syncSourceEntry source st p =
      { replica := r,
        stats := { st.stats with directoriesCreated := st.stats.directoriesCreated + 1 },
        log := st.log ++ [.createdDirectory p] } := by
  simp [syncSourceEntry, hs, hr, hm]

theorem syncSourceEntry_dir_create_fail (source : FS) (st : PassState) (p : Path)
    (hs : lookup source p = some .dir) (hr : lookup st.replica p = none)
    (hm : mkdir_parents st.replica p = none) :
    syncSourceEntry source st p =
      { st with log := st.log ++ [.failedCreateDirectory p] } := by
  simp [syncSourceEntry, hs, hr, hm]

theorem syncSourceEntry_src_gone (source : FS) (st : PassState) (p : Path)
    (hs : lookup source p = none) : syncSourceEntry source st p = st := by
  simp [syncSourceEntry, hs]

theorem syncReplicaEntry_file_del (source : FS) (st : PassState) (p : Path) (s m : Nat)
    (hr : lookup st.replica p = some (.file s m)) (hs : lookup source p = none) :
    syncReplicaEntry source st p =
      { replica := eraseEntry st.replica p,
        stats := { st.stats with filesDeleted := st.stats.filesDeleted + 1 },
        log := st.log ++ [.deletedFile p] } := by
  simp [syncReplicaEntry, hr, hs]

theorem syncReplicaEntry_dir_del (source : FS) (st : PassState) (p : Path)
    (hr : lookup st.replica p = some .dir) (hs : lookup source p = none) :
    syncReplicaEntry source st p =
      { replica := eraseTree st.replica p,
        stats := { st.stats with directoriesDeleted := st.stats.directoriesDeleted + 1 },
        log := st.log ++ [.deletedDirectory p] } := by
  simp [syncReplicaEntry, hr, hs]

theorem syncReplicaEntry_src_present (source : FS) (st : PassState) (p : Path)
    (hs : (lookup source p).isSome = true) : syncReplicaEntry source st p = st := by
  rcases h2 : lookup source p with _ | e2
  · rw [h2] at hs; cases hs
  · rcases h1 : lookup st.replica p with _ | e1
    · simp [syncReplicaEntry, h1]
    · cases e1 <;> simp [syncReplicaEntry, h1, h2]

theorem syncReplicaEntry_rep_gone (source : FS) (st : PassState) (p : Path)
    (hr : lookup st.replica p = none) : syncReplicaEntry source st p = st := by
  simp [syncReplicaEntry, hr]

/-- The first walk never removes an entry and never changes the kind of an
entry already present in the replica. -/
theorem syncSourceEntry_preserves_kind (source : FS) (st : PassState) (p q : Path)
    (e : Entry) (h : lookup st.replica q = some e) :
    ∃ e2, lookup (syncSourceEntry source st p).replica q = some e2 ∧
      e2.isFile = e.isFile := by
  rcases hs : lookup source p with _ | es
  · rw [syncSourceEntry_src_gone source st p hs]; exact ⟨e, h, rfl⟩
  · cases es with
    | file sz mt =>
      rcases hr : lookup st.replica p with _ | e1
      · rcases hc : copy2 st.replica p sz mt with _ | r
        · rw [syncSourceEntry_file_create_fail source st p sz mt hs hr hc]
          exact ⟨e, h, rfl⟩
        · rw [syncSourceEntry_file_create source st p sz mt hs hr r hc]
          exact copy2_preserves_kind st.replica p sz mt r hc q e h
      · by_cases hcond : sz ≠ e1.stSize ∨ mt > e1.stMtime
        · rcases hc : copy2 st.replica p sz mt with _ | r
          · rw [syncSourceEntry_file_update_fail source st p sz mt hs e1 hr hcond hc]
            exact ⟨e, h, rfl⟩
          · rw [syncSourceEntry_file_update source st p sz mt hs e1 hr hcond r hc]
            exact copy2_preserves_kind st.replica p sz mt r hc q e h
        · rw [syncSourceEntry_file_skip source st p sz mt hs e1 hr hcond]
          exact ⟨e, h, rfl⟩
    | dir =>
      rcases hr : lookup st.replica p with _ | e1
      · rcases hm : mkdir_parents st.replica p with _ | r
        · rw [syncSourceEntry_dir_create_fail source st p hs hr hm]
          exact ⟨e, h, rfl⟩
        · rw [syncSourceEntry_dir_create source st p hs hr r hm]
          rw [mkdir_parents_some st.replica p r hm]
          rw [lookup_mkdirCreate_of_isSome st.replica p q (by rw [h]; rfl)]
          exact ⟨e, h, rfl⟩
      · rw [syncSourceEntry_dir_skip source st p hs e1 hr]
        exact ⟨e, h, rfl⟩

/-- The first walk keeps all replica keys non-root. -/
theorem syncSourceEntry_preserves_keys_ne (source : FS) (st : PassState) (p : Path)
    (hsrc : ∀ pr ∈ source, pr.1 ≠ []) (hrep : ∀ pr ∈ st.replica, pr.1 ≠ []) :
    ∀ pr ∈ (syncSourceEntry source st p).replica, pr.1 ≠ [] := by
  rcases hs : lookup source p with _ | es
  · rw [syncSourceEntry_src_gone source st p hs]; exact hrep
  · have hpne : p ≠ [] := hsrc (p, es) (lookup_mem source p es hs)
    cases es with
    | file sz mt =>
      have hcopy : ∀ r, copy2 st.replica p sz mt = some r → ∀ pr ∈ r, pr.1 ≠ [] := by
        intro r hc pr hpr
        obtain ⟨target, htgt, _, rfl⟩ := copy2_spec st.replica p sz mt r hc
        rcases mem_setEntry st.replica target _ pr hpr with h2 | h2
        · exact hrep pr h2
        · rw [h2]
          rcases htgt with h3 | h3 <;> rw [h3]
          · exact hpne
          · simp
      rcases hr : lookup st.replica p with _ | e1
      · rcases hc : copy2 st.replica p sz mt with _ | r
        · rw [syncSourceEntry_file_create_fail source st p sz mt hs hr hc]; exact hrep
        · rw [syncSourceEntry_file_create source st p sz mt hs hr r hc]
          exact hcopy r hc
      · by_cases hcond : sz ≠ e1.stSize ∨ mt > e1.stMtime
        · rcases hc : copy2 st.replica p sz mt with _ | r
          · rw [syncSourceEntry_file_update_fail source st p sz mt hs e1 hr hcond hc]
            exact hrep
          · rw [syncSourceEntry_file_update source st p sz mt hs e1 hr hcond r hc]
            exact hcopy r hc
        · rw [syncSourceEntry_file_skip source st p sz mt hs e1 hr hcond]; exact hrep
    | dir =>
      rcases hr : lookup st.replica p with _ | e1
      · rcases hm : mkdir_parents st.replica p with _ | r
        · rw [syncSourceEntry_dir_create_fail source st p hs hr hm]; exact hrep
        · rw [syncSourceEntry_dir_create source st p hs hr r hm]
          intro pr hpr
          rw [mkdir_parents_some st.replica p r hm] at hpr
          rcases mem_mkdirCreate st.replica p pr hpr with h2 | ⟨k, h2⟩
          · exact hrep pr h2
          · rw [h2]
            simp only [ne_eq, List.take_eq_nil_iff]
            push_neg
            exact ⟨by omega, hpne⟩
      · rw [syncSourceEntry_dir_skip source st p hs e1 hr]; exact hrep

/-- The second walk keeps all replica keys non-root. -/
theorem syncReplicaEntry_preserves_keys_ne (source : FS) (st : PassState) (p : Path)
    (hrep : ∀ pr ∈ st.replica, pr.1 ≠ []) :
    ∀ pr ∈ (syncReplicaEntry source st p).replica, pr.1 ≠ [] := by
  rcases hr : lookup st.replica p with _ | e1
  · rw [syncReplicaEntry_rep_gone source st p hr]; exact hrep
  · rcases hs : lookup source p with _ | e2
    · cases e1 with
      | file s m =>
        rw [syncReplicaEntry_file_del source st p s m hr hs]
        exact fun pr hpr => hrep pr (mem_eraseEntry st.replica p pr hpr)
      | dir =>
        rw [syncReplicaEntry_dir_del source st p hr hs]
        exact fun pr hpr => hrep pr (mem_eraseTree st.replica p pr hpr)
    · rw [syncReplicaEntry_src_present source st p (by rw [hs]; rfl)]; exact hrep

theorem ancestorsFirst_no_later_ancestor (l1 : List Path) (p : Path) (l2 : List Path)
    (h : ancestorsFirst (l1 ++ p :: l2) = true) (q : Path) (hq : q ∈ l2)
    (hpre : q.isPrefixOf p = true) : q = p := by
  induction l1 with
  | nil =>
    simp only [List.nil_append, ancestorsFirst, Bool.and_eq_true] at h
    have h2 := List.all_eq_true.mp h.1 q hq
    rw [hpre] at h2
    simpa using h2
  | cons a l1 ih =>
    simp only [List.cons_append, ancestorsFirst, Bool.and_eq_true] at h
    exact ih h.2

theorem WF_ancestors_dir (fs : FS) (h : WF fs) (p : Path) (e : Entry)
    (hl : lookup fs p = some e) :
    ∀ k, k < p.length → 0 < k → lookup fs (p.take k) = some .dir :=
  h.2.2.1 (p, e) (lookup_mem fs p e hl)

theorem WF_key_ne_nil (fs : FS) (h : WF fs) (p : Path) (e : Entry)
    (hl : lookup fs p = some e) : p ≠ [] :=
  h.2.1 (p, e) (lookup_mem fs p e hl)

theorem noKindMismatch_lookup (source replica : FS) (h : noKindMismatch source replica)
    (p : Path) (es er : Entry) (hs : lookup source p = some es)
    (hr : lookup replica p = some er) : es.isFile = er.isFile := by
  have h2 := h (p, es) (lookup_mem source p es hs)
  rw [hr] at h2
  simpa [Option.all] using h2

end FolderSync
namespace FolderSync

theorem take_append_self (p t : Path) : (p ++ t).take p.length = p := by
  induction p with
  | nil => rfl
  | cons a p ih => simp [List.take_succ_cons, ih]

/-- A path absent from the replica stays absent through any step of the
second walk (the walk only deletes). -/
theorem syncReplicaEntry_lookup_none (source : FS) (st : PassState) (p q : Path)
    (h : lookup st.replica q = none) :
    lookup (syncReplicaEntry source st p).replica q = none := by
  rcases hr : lookup st.replica p with _ | e1
  · rw [syncReplicaEntry_rep_gone source st p hr]; exact h
  · rcases hs : lookup source p with _ | e2
    · cases e1 with
      | file s m =>
        rw [syncReplicaEntry_file_del source st p s m hr hs]
        show lookup (eraseEntry st.replica p) q = none
        rw [lookup_eraseEntry]
        split
        · rfl
        · exact h
      | dir =>
        rw [syncReplicaEntry_dir_del source st p hr hs]
        show lookup (eraseTree st.replica p) q = none
        cases hb : p.isPrefixOf q
        · rw [lookup_eraseTree_of_not_isPrefixOf _ _ _ hb]; exact h
        · exact lookup_eraseTree_of_isPrefixOf _ _ _ hb
    · rw [syncReplicaEntry_src_present source st p (by rw [hs]; rfl)]; exact h

theorem loop2_fold_lookup_none (source : FS) (ks : List Path) (st : PassState) (q : Path)
    (h : lookup st.replica q = none) :
    lookup ((ks.foldl (syncReplicaEntry source) st)).replica q = none := by
  induction ks generalizing st with
  | nil => exact h
  | cons p rest ih =>
    exact ih _ (syncReplicaEntry_lookup_none source st p q h)

/-- Every replica path processed by the second walk whose mirrored source
path does not exist has been removed when the walk finishes. -/
theorem loop2_fold_removes_orphans (source : FS) (ks : List Path) (st : PassState)
    (q : Path) (hs : lookup source q = none) (hq : q ∈ ks) :
    lookup ((ks.foldl (syncReplicaEntry source) st)).replica q = none := by
  induction ks generalizing st with
  | nil => cases hq
  | cons p rest ih =>
    simp only [List.foldl_cons]
    rcases List.mem_cons.mp hq with rfl | h2
    · rcases hr : lookup st.replica q with _ | e1
      · exact loop2_fold_lookup_none source rest _ q
          (by rw [syncReplicaEntry_rep_gone source st q hr]; exact hr)
      · cases e1 with
        | file s m =>
          apply loop2_fold_lookup_none
          rw [syncReplicaEntry_file_del source st q s m hr hs]
          show lookup (eraseEntry st.replica q) q = none
          rw [lookup_eraseEntry, if_pos rfl]
        | dir =>
          apply loop2_fold_lookup_none
          rw [syncReplicaEntry_dir_del source st q hr hs]
          show lookup (eraseTree st.replica q) q = none
          exact lookup_eraseTree_of_isPrefixOf _ q q (isPrefixOf_self q)
    · exact ih _ h2

/-- After the second walk, no replica entry survives at a path that does
not exist in the source tree. -/
theorem runLoop2_removes_orphans (source : FS) (st : PassState) (q : Path)
    (hs : lookup source q = none) :
    lookup (runLoop2 source st).replica q = none := by
  rw [runLoop2]
  by_cases hq : q ∈ keys st.replica
  · exact loop2_fold_removes_orphans source _ st q hs hq
  · refine loop2_fold_lookup_none source _ st q ?_
    rcases h : lookup st.replica q with _ | e
    · rfl
    · exact absurd ((lookup_isSome_iff_mem_keys st.replica q).mp (by rw [h]; rfl)) hq

/-- A step of the second walk leaves every entry whose mirrored source path
exists untouched (for a well-formed source: a deleted orphan directory is
never an ancestor of a source-present path). -/
theorem syncReplicaEntry_preserves_present (source : FS) (hwf : WF source)
    (st : PassState) (p : Path) (hp : p ≠ []) (q : Path) (e : Entry)
    (hq : (lookup source q).isSome = true) (h : lookup st.replica q = some e) :
    lookup (syncReplicaEntry source st p).replica q = some e := by
  rcases hr : lookup st.replica p with _ | e1
  · rw [syncReplicaEntry_rep_gone source st p hr]; exact h
  · rcases hsp : lookup source p with _ | e2
    · have hpq : ¬ q = p := by
        intro hh; rw [hh, hsp] at hq; cases hq
      cases e1 with
      | file s m =>
        rw [syncReplicaEntry_file_del source st p s m hr hsp]
        show lookup (eraseEntry st.replica p) q = some e
        rw [lookup_eraseEntry, if_neg hpq]; exact h
      | dir =>
        rw [syncReplicaEntry_dir_del source st p hr hsp]
        show lookup (eraseTree st.replica p) q = some e
        have hnp : p.isPrefixOf q = false := by
          cases hb : p.isPrefixOf q
          · rfl
          · exfalso
            obtain ⟨t, ht⟩ := (isPrefixOf_eq_true_iff p q).mp hb
            rcases hes : lookup source q with _ | es
            · rw [hes] at hq; cases hq
            · have hlen : p.length < q.length := by
                rcases t with _ | ⟨a, t2⟩
                · rw [List.append_nil] at ht
                  exact absurd ht.symm hpq
                · rw [← ht, List.length_append, List.length_cons]
                  omega
              have htake : q.take p.length = p := by
                rw [← ht]; exact take_append_self p t
              have hdir := WF_ancestors_dir source hwf q es hes p.length hlen
                (List.length_pos.mpr hp)
              rw [htake] at hdir
              rw [hdir] at hsp
              cases hsp
        rw [lookup_eraseTree_of_not_isPrefixOf _ _ _ hnp]; exact h
    · rw [syncReplicaEntry_src_present source st p (by rw [hsp]; rfl)]; exact h

theorem loop2_fold_preserves_present (source : FS) (hwf : WF source) (ks : List Path)
    (st : PassState) (q : Path) (e : Entry) (hq : (lookup source q).isSome = true)
    (hks : ∀ x ∈ ks, x ≠ []) (h : lookup st.replica q = some e) :
    lookup ((ks.foldl (syncReplicaEntry source) st)).replica q = some e := by
  induction ks generalizing st with
  | nil => exact h
  | cons p rest ih =>
    simp only [List.foldl_cons]
    refine ih _ (fun x hx => hks x (List.mem_cons_of_mem _ hx)) ?_
    exact syncReplicaEntry_preserves_present source hwf st p
      (hks p (List.mem_cons_self p rest)) q e hq h

/-- The whole second walk preserves every replica entry whose mirrored
source path exists. -/
theorem runLoop2_preserves_present (source : FS) (hwf : WF source) (st : PassState)
    (hne : ∀ pr ∈ st.replica, pr.1 ≠ []) (q : Path) (e : Entry)
    (hq : (lookup source q).isSome = true) (h : lookup st.replica q = some e) :
    lookup (runLoop2 source st).replica q = some e := by
  rw [runLoop2]
  refine loop2_fold_preserves_present source hwf _ st q e hq ?_ h
  intro x hx
  rw [keys] at hx
  obtain ⟨pr, hpr, rfl⟩ := List.mem_map.mp hx
  exact hne pr hpr

/-- The second walk logs no errors: its only log lines are the two
`Deleted ...` info messages. -/
theorem syncReplicaEntry_log (source : FS) (st : PassState) (p : Path) :
    ∀ ev ∈ (syncReplicaEntry source st p).log, ev.isError = true → ev ∈ st.log := by
  intro ev hev herr
  rcases hr : lookup st.replica p with _ | e1
  · rw [syncReplicaEntry_rep_gone source st p hr] at hev; exact hev
  · rcases hs : lookup source p with _ | e2
    · cases e1 with
      | file s m =>
        rw [syncReplicaEntry_file_del source st p s m hr hs] at hev
        rcases List.mem_append.mp hev with h2 | h2
        · exact h2
        · rw [List.mem_singleton.mp h2] at herr; cases herr
      | dir =>
        rw [syncReplicaEntry_dir_del source st p hr hs] at hev
        rcases List.mem_append.mp hev with h2 | h2
        · exact h2
        · rw [List.mem_singleton.mp h2] at herr; cases herr
    · rw [syncReplicaEntry_src_present source st p (by rw [hs]; rfl)] at hev; exact hev

theorem loop2_fold_log (source : FS) (ks : List Path) (st : PassState) :
    ∀ ev ∈ ((ks.foldl (syncReplicaEntry source) st)).log, ev.isError = true →
      ev ∈ st.log := by
  induction ks generalizing st with
  | nil => exact fun ev hev _ => hev
  | cons p rest ih =>
    intro ev hev herr
    exact syncReplicaEntry_log source st p ev (ih _ ev hev herr) herr

/-- The second walk only ever deletes: the surviving replica entries form a
subset of the entries it started with. -/
theorem syncReplicaEntry_mem_mono (source : FS) (st : PassState) (p : Path) :
    ∀ pr ∈ (syncReplicaEntry source st p).replica, pr ∈ st.replica := by
  intro pr hpr
  rcases hr : lookup st.replica p with _ | e1
  · rw [syncReplicaEntry_rep_gone source st p hr] at hpr; exact hpr
  · rcases hs : lookup source p with _ | e2
    · cases e1 with
      | file s m =>
        rw [syncReplicaEntry_file_del source st p s m hr hs] at hpr
        exact mem_eraseEntry st.replica p pr hpr
      | dir =>
        rw [syncReplicaEntry_dir_del source st p hr hs] at hpr
        exact mem_eraseTree st.replica p pr hpr
    · rw [syncReplicaEntry_src_present source st p (by rw [hs]; rfl)] at hpr; exact hpr

end FolderSync
namespace FolderSync

theorem dropLast_eq_take_pred (p : Path) : p.dropLast = p.take (p.length - 1) := by
  induction p with
  | nil => rfl
  | cons a p ih =>
    cases p with
    | nil => rfl
    | cons b q =>
      simp only [List.dropLast_cons₂, List.length_cons, Nat.add_sub_cancel,
        List.take_succ_cons, List.cons.injEq, true_and]
      rw [ih]
      simp

theorem entry_eq_dir_of_isFile_false (e : Entry) (h : e.isFile = false) : e = .dir := by
  cases e with
  | file s m => cases h
  | dir => rfl

theorem entry_file_of_isFile_true (e : Entry) (h : e.isFile = true) :
    ∃ s m, e = .file s m := by
  cases e with
  | file s m => exact ⟨s, m, rfl⟩
  | dir => cases h

theorem SyncedAfter_congr (source replica0 : FS) (p : Path) (r r2 : FS)
    (h : lookup r2 p = lookup r p) (hsy : SyncedAfter source replica0 p r) :
    SyncedAfter source replica0 p r2 := by
  rw [SyncedAfter] at hsy ⊢
  rcases hs : lookup source p with _ | es
  · trivial
  · rw [hs] at hsy
    cases es with
    | file sz mt =>
      rcases hsy with h1 | ⟨m2, h1, h2, h3⟩
      · exact Or.inl (by rw [h, h1])
      · exact Or.inr ⟨m2, h1, h2, by rw [h, h3]⟩
    | dir => rw [h]; exact hsy

theorem errs_append_nonerr (l0 lg : List LogEvent) (ev0 : LogEvent)
    (h : ∀ ev ∈ lg, ev.isError = true → ev ∈ l0) (hne : ev0.isError = false) :
    ∀ ev ∈ lg ++ [ev0], ev.isError = true → ev ∈ l0 := by
  intro ev hev herr
  rcases List.mem_append.mp hev with h2 | h2
  · exact h ev h2 herr
  · rw [List.mem_singleton.mp h2] at herr
    rw [herr] at hne
    cases hne

/-- One step of the first walk preserves the walk invariant. -/
theorem loop1_inv_step (source replica0 : FS) (l0 : List LogEvent)
    (hwf : WF source) (hmm : noKindMismatch source replica0)
    (ks1 ks2 : List Path) (p : Path) (hkeys : keys source = ks1 ++ p :: ks2)
    (st : PassState) (inv : Loop1Inv source replica0 l0 ks1 st) :
    Loop1Inv source replica0 l0 (ks1 ++ [p]) (syncSourceEntry source st p) := by
  have hnodup : (ks1 ++ p :: ks2).Nodup := hkeys ▸ hwf.1
  have hp1 : p ∉ ks1 := fun hin =>
    (List.disjoint_of_nodup_append hnodup) hin (List.mem_cons_self p ks2)
  have hpk : p ∈ keys source := by
    rw [hkeys]; exact List.mem_append_right ks1 (List.mem_cons_self p ks2)
  have hr0 : lookup st.replica p = lookup replica0 p := inv.untouched p hp1
  rcases hs : lookup source p with _ | es
  · exact absurd ((lookup_isSome_iff_mem_keys source p).mpr hpk)
      (by rw [hs]; intro hh; cases hh)
  have hpne : p ≠ [] := WF_key_ne_nil source hwf p es hs
  -- every proper ancestor of p has been processed and is a directory in
  -- the current replica
  have hancr : ∀ k, k < p.length → 0 < k → lookup st.replica (p.take k) = some .dir := by
    intro k hk hk0
    have hsrc : lookup source (p.take k) = some .dir :=
      WF_ancestors_dir source hwf p es hs k hk hk0
    have htkm : p.take k ∈ keys source :=
      (lookup_isSome_iff_mem_keys source (p.take k)).mp (by rw [hsrc]; rfl)
    have htkne : p.take k ≠ p := by
      intro hh
      have : (p.take k).length = k := by
        rw [List.length_take]; omega
      rw [hh] at this; omega
    have htk1 : p.take k ∈ ks1 := by
      rw [hkeys] at htkm
      rcases List.mem_append.mp htkm with h2 | h2
      · exact h2
      · rcases List.mem_cons.mp h2 with h3 | h3
        · exact absurd h3 htkne
        · exact absurd (ancestorsFirst_no_later_ancestor ks1 p ks2
            (hkeys ▸ hwf.2.2.2) (p.take k) h3 (take_isPrefixOf p k)) htkne
    have hsy := inv.synced (p.take k) htk1
    rw [SyncedAfter, hsrc] at hsy
    exact hsy
  have hpar : parentDirOk st.replica p = true := by
    rw [parentDirOk]
    rcases hdl : p.dropLast with _ | ⟨a, l⟩
    · rfl
    · have hlen2 : 0 < p.length - 1 := by
        have := congrArg List.length hdl
        rw [List.length_dropLast] at this
        rw [this]; simp
      have hd2 := hancr (p.length - 1) (by have := List.length_pos.mpr hpne; omega) hlen2
      rw [← dropLast_eq_take_pred, hdl] at hd2
      rw [hd2]
  -- helper for the three branches that write `setEntry st.replica p e2`
  have hset : ∀ e2 stats2 lg2, (lg2 : LogEvent).isError = false →
      Loop1Inv source replica0 l0 (ks1 ++ [p])
        { replica := setEntry st.replica p e2,
          stats := stats2,
          log := st.log ++ [lg2] } →
      True := fun _ _ _ _ _ => trivial
  clear hset
  cases es with
  | file sz mt =>
    rcases hr0' : lookup replica0 p with _ | er
    · -- replica path missing: CREATE branch, the copy succeeds
      have hrn : lookup st.replica p = none := by rw [hr0, hr0']
      have hc := copy2_of_lookup_none st.replica p sz mt hrn hpar
      rw [syncSourceEntry_file_create source st p sz mt hs hrn _ hc]
      refine ⟨?_, ?_, ?_, ?_⟩
      · intro q hq
        rw [List.mem_append, List.mem_singleton] at hq
        push_neg at hq
        show lookup (setEntry st.replica p (.file sz mt)) q = lookup replica0 q
        rw [lookup_setEntry, if_neg hq.2]
        exact inv.untouched q hq.1
      · intro p2 hp2
        rcases List.mem_append.mp hp2 with h2 | h2
        · refine SyncedAfter_congr source replica0 p2 st.replica _ ?_ (inv.synced p2 h2)
          show lookup (setEntry st.replica p (.file sz mt)) p2 = lookup st.replica p2
          rw [lookup_setEntry, if_neg (fun hh => hp1 (by rwa [hh] at h2))]
        · rw [List.mem_singleton.mp h2, SyncedAfter, hs]
          exact Or.inl (by show lookup (setEntry st.replica p _) p = _
                           rw [lookup_setEntry, if_pos rfl])
      · intro pr hpr
        rcases mem_setEntry st.replica p _ pr hpr with h2 | h2
        · exact inv.keysNe pr h2
        · rw [h2]; exact hpne
      · exact errs_append_nonerr l0 st.log _ inv.errs rfl
    · -- replica path present: by no-mismatch it is a file
      have hkind := noKindMismatch_lookup source replica0 hmm p _ er hs hr0'
      obtain ⟨s2, m2, rfl⟩ := entry_file_of_isFile_true er hkind.symm
      have hrf : lookup st.replica p = some (.file s2 m2) := by rw [hr0, hr0']
      by_cases hcond : sz ≠ (Entry.file s2 m2).stSize ∨ mt > (Entry.file s2 m2).stMtime
      · -- UPDATE branch, the copy overwrites the replica file
        have hc := copy2_of_lookup_file st.replica p sz mt s2 m2 hrf
        rw [syncSourceEntry_file_update source st p sz mt hs _ hrf hcond _ hc]
        refine ⟨?_, ?_, ?_, ?_⟩
        · intro q hq
          rw [List.mem_append, List.mem_singleton] at hq
          push_neg at hq
          show lookup (setEntry st.replica p (.file sz mt)) q = lookup replica0 q
          rw [lookup_setEntry, if_neg hq.2]
          exact inv.untouched q hq.1
        · intro p2 hp2
          rcases List.mem_append.mp hp2 with h2 | h2
          · refine SyncedAfter_congr source replica0 p2 st.replica _ ?_ (inv.synced p2 h2)
            show lookup (setEntry st.replica p (.file sz mt)) p2 = lookup st.replica p2
            rw [lookup_setEntry, if_neg (fun hh => hp1 (by rwa [hh] at h2))]
          · rw [List.mem_singleton.mp h2, SyncedAfter, hs]
            exact Or.inl (by show lookup (setEntry st.replica p _) p = _
                             rw [lookup_setEntry, if_pos rfl])
        · intro pr hpr
          rcases mem_setEntry st.replica p _ pr hpr with h2 | h2
          · exact inv.keysNe pr h2
          · rw [h2]; exact hpne
        · exact errs_append_nonerr l0 st.log _ inv.errs rfl
      · -- already in sync: untouched
        rw [syncSourceEntry_file_skip source st p sz mt hs _ hrf hcond]
        push_neg at hcond
        obtain ⟨hsz, hmt⟩ := hcond
        have hsz2 : sz = s2 := hsz
        have hmt2 : mt ≤ m2 := hmt
        refine ⟨?_, ?_, inv.keysNe, inv.errs⟩
        · intro q hq
          rw [List.mem_append, List.mem_singleton] at hq
          push_neg at hq
          exact inv.untouched q hq.1
        · intro p2 hp2
          rcases List.mem_append.mp hp2 with h2 | h2
          · exact inv.synced p2 h2
          · rw [List.mem_singleton.mp h2, SyncedAfter, hs]
            exact Or.inr ⟨m2, by rw [hr0', hsz2], hmt2, by rw [hrf, hsz2]⟩
  | dir =>
    rcases hr0' : lookup replica0 p with _ | er
    · -- replica directory missing: CREATE_DIR, mkdir creates exactly p
      have hrn : lookup st.replica p = none := by rw [hr0, hr0']
      have hmk := mkdir_parents_eq_setEntry st.replica p hpne hancr hrn
      rw [syncSourceEntry_dir_create source st p hs hrn _ hmk]
      refine ⟨?_, ?_, ?_, ?_⟩
      · intro q hq
        rw [List.mem_append, List.mem_singleton] at hq
        push_neg at hq
        show lookup (setEntry st.replica p .dir) q = lookup replica0 q
        rw [lookup_setEntry, if_neg hq.2]
        exact inv.untouched q hq.1
      · intro p2 hp2
        rcases List.mem_append.mp hp2 with h2 | h2
        · refine SyncedAfter_congr source replica0 p2 st.replica _ ?_ (inv.synced p2 h2)
          show lookup (setEntry st.replica p .dir) p2 = lookup st.replica p2
          rw [lookup_setEntry, if_neg (fun hh => hp1 (by rwa [hh] at h2))]
        · rw [List.mem_singleton.mp h2, SyncedAfter, hs]
          show lookup (setEntry st.replica p .dir) p = some .dir
          rw [lookup_setEntry, if_pos rfl]
      · intro pr hpr
        rcases mem_setEntry st.replica p _ pr hpr with h2 | h2
        · exact inv.keysNe pr h2
        · rw [h2]; exact hpne
      · exact errs_append_nonerr l0 st.log _ inv.errs rfl
    · -- replica path present: by no-mismatch it is a directory, no action
      have hkind := noKindMismatch_lookup source replica0 hmm p _ er hs hr0'
      have herd : er = .dir := entry_eq_dir_of_isFile_false er hkind.symm
      have hrd : lookup st.replica p = some er := by rw [hr0, hr0']
      rw [syncSourceEntry_dir_skip source st p hs er hrd]
      refine ⟨?_, ?_, inv.keysNe, inv.errs⟩
      · intro q hq
        rw [List.mem_append, List.mem_singleton] at hq
        push_neg at hq
        exact inv.untouched q hq.1
      · intro p2 hp2
        rcases List.mem_append.mp hp2 with h2 | h2
        · exact inv.synced p2 h2
        · rw [List.mem_singleton.mp h2, SyncedAfter, hs]
          rw [hrd, herd]

theorem loop1_inv_fold (source replica0 : FS) (l0 : List LogEvent)
    (hwf : WF source) (hmm : noKindMismatch source replica0) :
    ∀ (ks2 ks1 : List Path) (st : PassState), keys source = ks1 ++ ks2 →
      Loop1Inv source replica0 l0 ks1 st →
      Loop1Inv source replica0 l0 (keys source)
        (ks2.foldl (syncSourceEntry source) st) := by
  intro ks2
  induction ks2 with
  | nil =>
    intro ks1 st hkeys inv
    rw [List.append_nil] at hkeys
    rw [List.foldl_nil, hkeys]
    exact inv
  | cons p rest ih =>
    intro ks1 st hkeys inv
    rw [List.foldl_cons]
    refine ih (ks1 ++ [p]) _ ?_ ?_
    · rw [hkeys, List.append_assoc, List.singleton_append]
    · exact loop1_inv_step source replica0 l0 hwf hmm ks1 rest p hkeys st inv

/-- The full first walk, started on the original replica, establishes the
invariant at every source key. -/
theorem runLoop1_inv (source replica0 : FS) (s0 : Stats) (l0 : List LogEvent)
    (hwf : WF source) (hmm : noKindMismatch source replica0)
    (hne : ∀ pr ∈ replica0, pr.1 ≠ []) :
    Loop1Inv source replica0 l0 (keys source)
      (runLoop1 source ⟨replica0, s0, l0⟩) := by
  refine loop1_inv_fold source replica0 l0 hwf hmm (keys source) [] _ rfl ?_
  exact ⟨fun q _ => rfl, fun p hp => absurd hp (List.not_mem_nil p), hne,
    fun ev hev herr => hev⟩

end FolderSync
namespace FolderSync

theorem loop1_fold_preserves_kind (source : FS) (ks : List Path) (st : PassState)
    (q : Path) (e : Entry) (h : lookup st.replica q = some e) :
    ∃ e2, lookup ((ks.foldl (syncSourceEntry source) st)).replica q = some e2 ∧
      e2.isFile = e.isFile := by
  induction ks generalizing st e with
  | nil => exact ⟨e, h, rfl⟩
  | cons p rest ih =>
    obtain ⟨e2, h2, hk⟩ := syncSourceEntry_preserves_kind source st p q e h
    obtain ⟨e3, h3, hk3⟩ := ih _ e2 h2
    exact ⟨e3, h3, hk3.trans hk⟩

theorem loop1_fold_keys_ne (source : FS) (hsrc : ∀ pr ∈ source, pr.1 ≠ [])
    (ks : List Path) (st : PassState) (hrep : ∀ pr ∈ st.replica, pr.1 ≠ []) :
    ∀ pr ∈ ((ks.foldl (syncSourceEntry source) st)).replica, pr.1 ≠ [] := by
  induction ks generalizing st with
  | nil => exact hrep
  | cons p rest ih =>
    exact ih _ (syncSourceEntry_preserves_keys_ne source st p hsrc hrep)

theorem loop1_fold_id (source : FS) (ks : List Path) (st : PassState)
    (h : ∀ p ∈ ks, syncSourceEntry source st p = st) :
    ks.foldl (syncSourceEntry source) st = st := by
  induction ks with
  | nil => rfl
  | cons p rest ih =>
    rw [List.foldl_cons, h p (List.mem_cons_self p rest)]
    exact ih fun p2 hp2 => h p2 (List.mem_cons_of_mem _ hp2)

theorem loop2_fold_id (source : FS) (ks : List Path) (st : PassState)
    (h : ∀ p ∈ ks, syncReplicaEntry source st p = st) :
    ks.foldl (syncReplicaEntry source) st = st := by
  induction ks with
  | nil => rfl
  | cons p rest ih =>
    rw [List.foldl_cons, h p (List.mem_cons_self p rest)]
    exact ih fun p2 hp2 => h p2 (List.mem_cons_of_mem _ hp2)

/-- A source entry whose replica counterpart is already up to date (same
size, no newer mtime for files; existing path for directories) produces no
action. -/
theorem syncSourceEntry_id_of_synced (source : FS) (st : PassState) (p : Path)
    (hfile : ∀ sz mt, lookup source p = some (.file sz mt) →
        ∃ m2, lookup st.replica p = some (.file sz m2) ∧ mt ≤ m2)
    (hdir : lookup source p = some .dir → (lookup st.replica p).isSome = true) :
    syncSourceEntry source st p = st := by
  rcases hs : lookup source p with _ | es
  · exact syncSourceEntry_src_gone source st p hs
  · cases es with
    | file sz mt =>
      obtain ⟨m2, hrf, hmt⟩ := hfile sz mt hs
      refine syncSourceEntry_file_skip source st p sz mt hs _ hrf ?_
      rw [not_or]
      refine ⟨by simp [Entry.stSize], ?_⟩
      show ¬ (Entry.file sz m2).stMtime < mt
      rw [Entry.stMtime]
      omega
    | dir =>
      rcases hr : lookup st.replica p with _ | e1
      · have := hdir hs
        rw [hr] at this
        cases this
      · exact syncSourceEntry_dir_skip source st p hs e1 hr

/-- A pass over a state in which the replica already mirrors the source
(every source entry in sync, no orphan entries) changes nothing at all. -/
theorem synchronize_folders_id (source : FS) (st : PassState)
    (hfile : ∀ p sz mt, lookup source p = some (.file sz mt) →
        ∃ m2, lookup st.replica p = some (.file sz m2) ∧ mt ≤ m2)
    (hdir : ∀ p, lookup source p = some .dir → lookup st.replica p = some .dir)
    (hsub : ∀ q, lookup source q = none → lookup st.replica q = none) :
    synchronize_folders source st = st := by
  have hl1 : runLoop1 source st = st := by
    apply loop1_fold_id
    intro p _
    refine syncSourceEntry_id_of_synced source st p (hfile p) ?_
    intro hs
    rw [hdir p hs]
    rfl
  rw [synchronize_folders, hl1, runLoop2]
  apply loop2_fold_id
  intro q hq
  have hqs : (lookup st.replica q).isSome = true :=
    (lookup_isSome_iff_mem_keys _ q).mpr hq
  have hsq : (lookup source q).isSome = true := by
    rcases h : lookup source q with _ | e
    · rw [hsub q h] at hqs; cases hqs
    · rfl
  exact syncReplicaEntry_src_present source st q hsq

theorem SyncedAfter_runLoop2 (source replica0 : FS) (hwf : WF source)
    (st : PassState) (hne : ∀ pr ∈ st.replica, pr.1 ≠ []) (p : Path)
    (hp : (lookup source p).isSome = true)
    (hsy : SyncedAfter source replica0 p st.replica) :
    SyncedAfter source replica0 p (runLoop2 source st).replica := by
  rw [SyncedAfter] at hsy ⊢
  rcases hs : lookup source p with _ | es
  · trivial
  · rw [hs] at hsy
    cases es with
    | file sz mt =>
      rcases hsy with h1 | ⟨m2, ha, hb, hc⟩
      · exact Or.inl (runLoop2_preserves_present source hwf st hne p _ hp h1)
      · exact Or.inr ⟨m2, ha, hb,
          runLoop2_preserves_present source hwf st hne p _ hp hc⟩
    | dir => exact runLoop2_preserves_present source hwf st hne p _ hp hsy

/-- After a full pass over a well-formed source with no kind clash against
the replica: every source key is synced, every source-absent path is gone
from the replica, no replica key is the root, and no error was logged. -/
theorem synchronize_folders_stable (source replica0 : FS) (s0 : Stats)
    (l0 : List LogEvent) (hwf : WF source) (hne : ∀ pr ∈ replica0, pr.1 ≠ [])
    (hmm : noKindMismatch source replica0) :
    (∀ p ∈ keys source, SyncedAfter source replica0 p
        (synchronize_folders source ⟨replica0, s0, l0⟩).replica) ∧
    (∀ q, lookup source q = none →
        lookup (synchronize_folders source ⟨replica0, s0, l0⟩).replica q = none) ∧
    (∀ pr ∈ (synchronize_folders source ⟨replica0, s0, l0⟩).replica, pr.1 ≠ []) ∧
    (∀ ev ∈ (synchronize_folders source ⟨replica0, s0, l0⟩).log,
        ev.isError = true → ev ∈ l0) := by
  have inv := runLoop1_inv source replica0 s0 l0 hwf hmm hne
  rw [synchronize_folders]
  refine ⟨?_, ?_, ?_, ?_⟩
  · intro p hp
    refine SyncedAfter_runLoop2 source replica0 hwf _ inv.keysNe p ?_ (inv.synced p hp)
    exact (lookup_isSome_iff_mem_keys source p).mpr hp
  · intro q hq
    exact runLoop2_removes_orphans source _ q hq
  · rw [runLoop2]
    intro pr hpr
    -- the second walk only deletes, so surviving entries were present before
    have hmono : ∀ (ks : List Path) (st : PassState) pr,
        pr ∈ ((ks.foldl (syncReplicaEntry source) st)).replica → pr ∈ st.replica := by
      intro ks
      induction ks with
      | nil => exact fun st pr h => h
      | cons x rest ih =>
        intro st pr h
        exact syncReplicaEntry_mem_mono source st x pr (ih _ pr h)
    exact inv.keysNe pr (hmono _ _ pr hpr)
  · rw [runLoop2]
    exact fun ev hev herr => inv.errs ev (loop2_fold_log source _ _ ev hev herr) herr

end FolderSync
namespace FolderSync

theorem Stats.add_zero_right (s : Stats) : Stats.add s Stats.zero = s := by
  cases s
  simp [Stats.add, Stats.zero]

/-- The first walk never reads the counters: starting it with `d` added to
every counter adds `d` to every counter of the result and changes nothing
else. -/
theorem syncSourceEntry_stats_shift (source : FS) (r : FS) (s : Stats)
    (lg : List LogEvent) (d : Stats) (p : Path) :
    syncSourceEntry source ⟨r, Stats.add d s, lg⟩ p =
      { replica := (syncSourceEntry source ⟨r, s, lg⟩ p).replica,
        stats := Stats.add d (syncSourceEntry source ⟨r, s, lg⟩ p).stats,
        log := (syncSourceEntry source ⟨r, s, lg⟩ p).log } := by
  rcases hs : lookup source p with _ | es
  · rw [syncSourceEntry_src_gone source _ p hs, syncSourceEntry_src_gone source _ p hs]
  · cases es with
    | file sz mt =>
      rcases hr : lookup r p with _ | e1
      · rcases hc : copy2 r p sz mt with _ | r2
        · rw [syncSourceEntry_file_create_fail source _ p sz mt hs hr hc,
            syncSourceEntry_file_create_fail source _ p sz mt hs hr hc]
        · rw [syncSourceEntry_file_create source _ p sz mt hs hr r2 hc,
            syncSourceEntry_file_create source _ p sz mt hs hr r2 hc]
          simp [Stats.add, Nat.add_assoc]
      · by_cases hcond : sz ≠ e1.stSize ∨ mt > e1.stMtime
        · rcases hc : copy2 r p sz mt with _ | r2
          · rw [syncSourceEntry_file_update_fail source _ p sz mt hs e1 hr hcond hc,
              syncSourceEntry_file_update_fail source _ p sz mt hs e1 hr hcond hc]
          · rw [syncSourceEntry_file_update source _ p sz mt hs e1 hr hcond r2 hc,
              syncSourceEntry_file_update source _ p sz mt hs e1 hr hcond r2 hc]
            simp [Stats.add, Nat.add_assoc]
        · rw [syncSourceEntry_file_skip source _ p sz mt hs e1 hr hcond,
            syncSourceEntry_file_skip source _ p sz mt hs e1 hr hcond]
    | dir =>
      rcases hr : lookup r p with _ | e1
      · rcases hm : mkdir_parents r p with _ | r2
        · rw [syncSourceEntry_dir_create_fail source _ p hs hr hm,
            syncSourceEntry_dir_create_fail source _ p hs hr hm]
        · rw [syncSourceEntry_dir_create source _ p hs hr r2 hm,
            syncSourceEntry_dir_create source _ p hs hr r2 hm]
          simp [Stats.add, Nat.add_assoc]
      · rw [syncSourceEntry_dir_skip source _ p hs e1 hr,
          syncSourceEntry_dir_skip source _ p hs e1 hr]

/-- The second walk never reads the counters either. -/
theorem syncReplicaEntry_stats_shift (source : FS) (r : FS) (s : Stats)
    (lg : List LogEvent) (d : Stats) (p : Path) :
    syncReplicaEntry source ⟨r, Stats.add d s, lg⟩ p =
      { replica := (syncReplicaEntry source ⟨r, s, lg⟩ p).replica,
        stats := Stats.add d (syncReplicaEntry source ⟨r, s, lg⟩ p).stats,
        log := (syncReplicaEntry source ⟨r, s, lg⟩ p).log } := by
  rcases hr : lookup r p with _ | e1
  · rw [syncReplicaEntry_rep_gone source _ p hr, syncReplicaEntry_rep_gone source _ p hr]
  · rcases hsp : lookup source p with _ | e2
    · cases e1 with
      | file s2 m2 =>
        rw [syncReplicaEntry_file_del source _ p s2 m2 hr hsp,
          syncReplicaEntry_file_del source _ p s2 m2 hr hsp]
        simp [Stats.add, Nat.add_assoc]
      | dir =>
        rw [syncReplicaEntry_dir_del source _ p hr hsp,
          syncReplicaEntry_dir_del source _ p hr hsp]
        simp [Stats.add, Nat.add_assoc]
    · rw [syncReplicaEntry_src_present source _ p (by rw [hsp]; rfl),
        syncReplicaEntry_src_present source _ p (by rw [hsp]; rfl)]

theorem loop1_fold_stats_shift (source : FS) (ks : List Path) (r : FS) (s : Stats)
    (lg : List LogEvent) (d : Stats) :
    ks.foldl (syncSourceEntry source) ⟨r, Stats.add d s, lg⟩ =
      { replica := (ks.foldl (syncSourceEntry source) ⟨r, s, lg⟩).replica,
        stats := Stats.add d (ks.foldl (syncSourceEntry source) ⟨r, s, lg⟩).stats,
        log := (ks.foldl (syncSourceEntry source) ⟨r, s, lg⟩).log } := by
  induction ks generalizing r s lg with
  | nil => rfl
  | cons p rest ih =>
    rw [List.foldl_cons, List.foldl_cons, syncSourceEntry_stats_shift]
    exact ih (syncSourceEntry source ⟨r, s, lg⟩ p).replica
      (syncSourceEntry source ⟨r, s, lg⟩ p).stats
      (syncSourceEntry source ⟨r, s, lg⟩ p).log

theorem loop2_fold_stats_shift (source : FS) (ks : List Path) (r : FS) (s : Stats)
    (lg : List LogEvent) (d : Stats) :
    ks.foldl (syncReplicaEntry source) ⟨r, Stats.add d s, lg⟩ =
      { replica := (ks.foldl (syncReplicaEntry source) ⟨r, s, lg⟩).replica,
        stats := Stats.add d (ks.foldl (syncReplicaEntry source) ⟨r, s, lg⟩).stats,
        log := (ks.foldl (syncReplicaEntry source) ⟨r, s, lg⟩).log } := by
  induction ks generalizing r s lg with
  | nil => rfl
  | cons p rest ih =>
    rw [List.foldl_cons, List.foldl_cons, syncReplicaEntry_stats_shift]
    exact ih (syncReplicaEntry source ⟨r, s, lg⟩ p).replica
      (syncReplicaEntry source ⟨r, s, lg⟩ p).stats
      (syncReplicaEntry source ⟨r, s, lg⟩ p).log

/-- A whole pass only ever adds to the counters: starting from counters
`Stats.add d s` yields exactly `d` plus what the same pass yields from `s`,
with identical replica and log. -/
theorem synchronize_folders_stats_shift (source : FS) (r : FS) (s : Stats)
    (lg : List LogEvent) (d : Stats) :
    synchronize_folders source ⟨r, Stats.add d s, lg⟩ =
      { replica := (synchronize_folders source ⟨r, s, lg⟩).replica,
        stats := Stats.add d (synchronize_folders source ⟨r, s, lg⟩).stats,
        log := (synchronize_folders source ⟨r, s, lg⟩).log } := by
  rw [synchronize_folders, synchronize_folders, runLoop1, runLoop1,
    loop1_fold_stats_shift, runLoop2, runLoop2]
  exact loop2_fold_stats_shift source _ _ _ _ d

end FolderSync
namespace FolderSync

/-- C1 (counterexample): as stated, the claim fails.  Source tree has
directory `a` and file `a/b`; the replica has a plain *file* named `a`.
During the walk the replica path `a/b` does not exist, yet the file is not
copied and the `created` counter is not incremented: the copy raises
(parent is not a directory), is only logged, and the walk ends with the
counter still `0` and no replica entry at `a/b`. -/
theorem claim1_counterexample :
    (runLoop1 [(["a"], Entry.dir), (["a", "b"], Entry.file 5 10)]
        ⟨[(["a"], Entry.file 1 1)], Stats.zero, []⟩).stats.filesCreated = 0 ∧
    lookup (runLoop1 [(["a"], Entry.dir), (["a", "b"], Entry.file 5 10)]
        ⟨[(["a"], Entry.file 1 1)], Stats.zero, []⟩).replica ["a", "b"] = none ∧
    lookup [(["a"], Entry.file 1 1)] ["a", "b"] = none ∧
    (runLoop1 [(["a"], Entry.dir), (["a", "b"], Entry.file 5 10)]
        ⟨[(["a"], Entry.file 1 1)], Stats.zero, []⟩).log =
      [LogEvent.failedCopy ["a", "b"]] := by decide

/-- C1 (amended): for every file encountered in the source-tree walk, when
the copy action itself succeeds — the replica parent directory exists for a
missing replica path, and the existing replica counterpart is a regular
file for the update/skip cases: if the replica path does not exist the
file is copied and `Files created` is incremented; if the replica file
exists and the sizes differ or the source mtime is strictly greater, the
file is recopied and `Files changed/copied` is incremented; if the replica
file exists with identical size and a not-greater source mtime, nothing
changes and no counter is incremented. -/
theorem claim1_amended (source : FS) (st : PassState) (p : Path) (sz mt : Nat)
    (hs : lookup source p = some (.file sz mt)) :
    (lookup st.replica p = none → parentDirOk st.replica p = true →
      syncSourceEntry source st p =
        { replica := setEntry st.replica p (.file sz mt),
          stats := { st.stats with filesCreated := st.stats.filesCreated + 1 },
          log := st.log ++ [.createdCopied p] }) ∧
    (∀ s2 m2, lookup st.replica p = some (.file s2 m2) → (sz ≠ s2 ∨ mt > m2) →
      syncSourceEntry source st p =
        { replica := setEntry st.replica p (.file sz mt),
          stats :=
            { st.stats with filesChangedCopied := st.stats.filesChangedCopied + 1 },
          log := st.log ++ [.copied p] }) ∧
    (∀ s2 m2, lookup st.replica p = some (.file s2 m2) → sz = s2 → mt ≤ m2 →
      syncSourceEntry source st p = st) := by
  refine ⟨?_, ?_, ?_⟩
  · intro hr hp
    rw [syncSourceEntry_file_create source st p sz mt hs hr _
      (copy2_of_lookup_none st.replica p sz mt hr hp)]
  · intro s2 m2 hr hcond
    have hcond2 : sz ≠ (Entry.file s2 m2).stSize ∨ mt > (Entry.file s2 m2).stMtime := hcond
    rw [syncSourceEntry_file_update source st p sz mt hs _ hr hcond2 _
      (copy2_of_lookup_file st.replica p sz mt s2 m2 hr)]
  · intro s2 m2 hr hsz hmt
    refine syncSourceEntry_file_skip source st p sz mt hs _ hr ?_
    rw [not_or]
    refine ⟨fun hcon => hcon hsz, ?_⟩
    show ¬ (Entry.file s2 m2).stMtime < mt
    rw [Entry.stMtime]
    omega

/-- C1 witness: a concrete new file is copied and counted. -/
theorem claim1_amended_witness :
    syncSourceEntry [(["a"], Entry.file 5 10)] ⟨[], Stats.zero, []⟩ ["a"] =
      { replica := setEntry [] ["a"] (Entry.file 5 10),
        stats := { Stats.zero with filesCreated := Stats.zero.filesCreated + 1 },
        log := [] ++ [.createdCopied ["a"]] } :=
  (claim1_amended [(["a"], Entry.file 5 10)] ⟨[], Stats.zero, []⟩ ["a"] 5 10 rfl).1 rfl rfl

/-- C2 (counterexample): as stated, the claim fails.  Source holds file
`p`, replica holds directory `p`; the pass completes without any per-entry
action failure (no error is logged), yet after the pass the replica entry
at `p` is still a directory, not a file — no identically-pathed entry of
the source's kind exists. -/
theorem claim2_counterexample :
    (∀ ev ∈ (synchronize_folders [(["p"], Entry.file 5 100)]
        ⟨[(["p"], Entry.dir)], Stats.zero, []⟩).log, ev.isError = false) ∧
    lookup (synchronize_folders [(["p"], Entry.file 5 100)]
        ⟨[(["p"], Entry.dir)], Stats.zero, []⟩).replica ["p"] =
      some Entry.dir := by decide

/-- C2 (amended): after one synchronization pass over a well-formed source
tree and a replica tree that has no file/directory kind clash with the
source, every file and directory of the source has an identically-pathed
entry of the same kind in the replica, and the pass logged no error (no
per-entry action failed). -/
theorem claim2_amended (source replica0 : FS) (s0 : Stats) (l0 : List LogEvent)
    (hwf : WF source) (hne : ∀ pr ∈ replica0, pr.1 ≠ [])
    (hmm : noKindMismatch source replica0) :
    (∀ p e, lookup source p = some e →
      ∃ e2, lookup (synchronize_folders source ⟨replica0, s0, l0⟩).replica p = some e2 ∧
        e2.isFile = e.isFile) ∧
    (∀ ev ∈ (synchronize_folders source ⟨replica0, s0, l0⟩).log,
      ev.isError = true → ev ∈ l0) := by
  obtain ⟨hsy, _, _, herr⟩ :=
    synchronize_folders_stable source replica0 s0 l0 hwf hne hmm
  refine ⟨?_, herr⟩
  intro p e hp
  have hpk : p ∈ keys source :=
    (lookup_isSome_iff_mem_keys source p).mp (by rw [hp]; rfl)
  have h2 := hsy p hpk
  rw [SyncedAfter, hp] at h2
  cases e with
  | file sz mt =>
    rcases h2 with h3 | ⟨m2, _, _, h3⟩
    · exact ⟨_, h3, rfl⟩
    · exact ⟨_, h3, rfl⟩
  | dir => exact ⟨_, h2, rfl⟩

/-- C2 witness: a nested source file ends up present in an initially empty
replica. -/
theorem claim2_amended_witness :
    ∃ e2, lookup (synchronize_folders [(["a"], Entry.dir), (["a", "b"], Entry.file 5 10)]
        ⟨[], Stats.zero, []⟩).replica ["a", "b"] = some e2 ∧
      e2.isFile = (Entry.file 5 10).isFile :=
  (claim2_amended [(["a"], Entry.dir), (["a", "b"], Entry.file 5 10)] [] Stats.zero []
    (by decide) (by decide) (by decide)).1 ["a", "b"] (Entry.file 5 10) rfl

/-- C3 (confirmed): during the replica walk of a pass, a replica file whose
mirrored source path does not exist is unlinked (counter `Files deleted`),
a replica directory whose mirrored source path does not exist is removed
with its entire subtree (counter `Directories deleted`), after the walk no
replica entry survives at a source-absent path, an entry whose mirrored
source path exists produces no action, and — for a well-formed source tree
— such an entry is never deleted by the whole walk. -/
theorem claim3 (source : FS) (st : PassState) (hwf : WF source)
    (hne : ∀ pr ∈ st.replica, pr.1 ≠ []) :
    (∀ p s m, lookup st.replica p = some (.file s m) → lookup source p = none →
      syncReplicaEntry source st p =
        { replica := eraseEntry st.replica p,
          stats := { st.stats with filesDeleted := st.stats.filesDeleted + 1 },
          log := st.log ++ [.deletedFile p] }) ∧
    (∀ p, lookup st.replica p = some .dir → lookup source p = none →
      syncReplicaEntry source st p =
        { replica := eraseTree st.replica p,
          stats :=
            { st.stats with directoriesDeleted := st.stats.directoriesDeleted + 1 },
          log := st.log ++ [.deletedDirectory p] } ∧
      ∀ q, p.isPrefixOf q = true → lookup (eraseTree st.replica p) q = none) ∧
    (∀ q, lookup source q = none → lookup (runLoop2 source st).replica q = none) ∧
    (∀ p, (lookup source p).isSome = true → syncReplicaEntry source st p = st) ∧
    (∀ q e, (lookup source q).isSome = true → lookup st.replica q = some e →
      lookup (runLoop2 source st).replica q = some e) := by
  refine ⟨?_, ?_, ?_, ?_, ?_⟩
  · exact fun p s m hr hs => syncReplicaEntry_file_del source st p s m hr hs
  · intro p hr hs
    exact ⟨syncReplicaEntry_dir_del source st p hr hs,
      fun q hq => lookup_eraseTree_of_isPrefixOf st.replica p q hq⟩
  · exact fun q hq => runLoop2_removes_orphans source st q hq
  · exact fun p hs => syncReplicaEntry_src_present source st p hs
  · exact fun q e hq h => runLoop2_preserves_present source hwf st hne q e hq h

/-- C3 witness: a concrete orphan replica file is unlinked and counted. -/
theorem claim3_witness :
    syncReplicaEntry [(["a"], Entry.dir)]
        ⟨[(["b"], Entry.file 1 1)], Stats.zero, []⟩ ["b"] =
      { replica := eraseEntry [(["b"], Entry.file 1 1)] ["b"],
        stats := { Stats.zero with filesDeleted := Stats.zero.filesDeleted + 1 },
        log := [] ++ [.deletedFile ["b"]] } :=
  (claim3 [(["a"], Entry.dir)] ⟨[(["b"], Entry.file 1 1)], Stats.zero, []⟩
    (by decide) (by decide)).1 ["b"] 1 1 rfl rfl

/-- C4 (counterexample): as stated, the claim fails.  With source file `p`
and replica directory `p`, the second pass (run on the replica produced by
the first pass, with counters reset) again copies the file into the
directory and again deletes the stray inner file: its counters are not all
zero. -/
theorem claim4_counterexample :
    (synchronize_folders [(["p"], Entry.file 5 100)]
      ⟨(synchronize_folders [(["p"], Entry.file 5 100)]
          ⟨[(["p"], Entry.dir)], Stats.zero, []⟩).replica, Stats.zero, []⟩).stats ≠
      Stats.zero := by decide

/-- C4 (amended): for every well-formed pair of source and replica trees
with no file/directory kind clash between them, running a pass twice in
succession with no intervening filesystem changes produces zero actions on
the second pass — every counter is zero after the second pass, given the
counters were reset in between. -/
theorem claim4_amended (source replica0 : FS) (s0 : Stats) (l0 l1 : List LogEvent)
    (hwf : WF source) (hne : ∀ pr ∈ replica0, pr.1 ≠ [])
    (hmm : noKindMismatch source replica0) :
    (synchronize_folders source
      ⟨(synchronize_folders source ⟨replica0, s0, l0⟩).replica,
        Stats.zero, l1⟩).stats = Stats.zero := by
  obtain ⟨hsy, hsub, _, _⟩ :=
    synchronize_folders_stable source replica0 s0 l0 hwf hne hmm
  have hid : synchronize_folders source
      ⟨(synchronize_folders source ⟨replica0, s0, l0⟩).replica, Stats.zero, l1⟩ =
      ⟨(synchronize_folders source ⟨replica0, s0, l0⟩).replica, Stats.zero, l1⟩ := by
    apply synchronize_folders_id
    · intro p sz mt hp
      have hpk : p ∈ keys source :=
        (lookup_isSome_iff_mem_keys source p).mp (by rw [hp]; rfl)
      have h2 := hsy p hpk
      rw [SyncedAfter, hp] at h2
      rcases h2 with h3 | ⟨m2, _, hb, h3⟩
      · exact ⟨mt, h3, Nat.le_refl mt⟩
      · exact ⟨m2, h3, hb⟩
    · intro p hp
      have hpk : p ∈ keys source :=
        (lookup_isSome_iff_mem_keys source p).mp (by rw [hp]; rfl)
      have h2 := hsy p hpk
      rw [SyncedAfter, hp] at h2
      exact h2
    · exact hsub
  rw [hid]

/-- C4 witness: second pass over a concrete synced pair counts nothing. -/
theorem claim4_amended_witness :
    (synchronize_folders [(["a"], Entry.file 5 10)]
      ⟨(synchronize_folders [(["a"], Entry.file 5 10)] ⟨[], Stats.zero, []⟩).replica,
        Stats.zero, []⟩).stats = Stats.zero :=
  claim4_amended [(["a"], Entry.file 5 10)] [] Stats.zero [] []
    (by decide) (by decide) (by decide)

end FolderSync
namespace FolderSync

/-- C5 (confirmed): when applying the action for a single source entry
fails — a copy (create or update) or a directory creation raises — an
error naming the offending path is logged, neither the counters nor the
replica change, and the walk continues with all remaining entries: the
fold processes every entry after the failing one exactly as before (in
this model deletions of existing entries cannot raise, so no deletion
failure arises). -/
theorem claim5 (source : FS) (st : PassState) (p : Path) (sz mt : Nat) :
    (lookup source p = some (.file sz mt) → lookup st.replica p = none →
      copy2 st.replica p sz mt = none →
      syncSourceEntry source st p = { st with log := st.log ++ [.failedCopy p] }) ∧
    (∀ e, lookup source p = some (.file sz mt) → lookup st.replica p = some e →
      (sz ≠ e.stSize ∨ mt > e.stMtime) → copy2 st.replica p sz mt = none →
      syncSourceEntry source st p = { st with log := st.log ++ [.failedCopy p] }) ∧
    (lookup source p = some .dir → lookup st.replica p = none →
      mkdir_parents st.replica p = none →
      syncSourceEntry source st p =
        { st with log := st.log ++ [.failedCreateDirectory p] }) ∧
    (∀ (ks1 ks2 : List Path) (st2 : PassState),
      List.foldl (syncSourceEntry source) st2 (ks1 ++ p :: ks2) =
        List.foldl (syncSourceEntry source)
          (syncSourceEntry source (List.foldl (syncSourceEntry source) st2 ks1) p) ks2) := by
  refine ⟨?_, ?_, ?_, ?_⟩
  · exact fun hs hr hc => syncSourceEntry_file_create_fail source st p sz mt hs hr hc
  · exact fun e hs hr hcond hc =>
      syncSourceEntry_file_update_fail source st p sz mt hs e hr hcond hc
  · exact fun hs hr hm => syncSourceEntry_dir_create_fail source st p hs hr hm
  · intro ks1 ks2 st2
    rw [List.foldl_append, List.foldl_cons]

/-- C5 witness: a concrete failing copy (missing parent directory) only
logs an error naming the path and leaves counters and replica unchanged. -/
theorem claim5_witness :
    syncSourceEntry [(["a", "b"], Entry.file 5 10)] ⟨[], Stats.zero, []⟩ ["a", "b"] =
      { (⟨[], Stats.zero, []⟩ : PassState) with
          log := [] ++ [.failedCopy ["a", "b"]] } :=
  (claim5 [(["a", "b"], Entry.file 5 10)] ⟨[], Stats.zero, []⟩ ["a", "b"] 5 10).1
    rfl rfl rfl

/-- C6 (counterexample): as stated, the claim fails.  Copying into an empty
replica at the nested path `a/b` does not create the missing parent
directory `a`: `shutil.copy2` raises instead, and the model's copy returns
no result. -/
theorem claim6_counterexample :
    copy2 [] ["a", "b"] 5 7 = none ∧ lookup [] ["a"] = none := by decide

/-- C6 (amended): when a pass copies a source file to its replica path, the
copy transfers the file's bytes (size) and metadata (mtime) and overwrites
an existing replica file; it does **not** create missing parent directories
of the replica path — if the parent directory is absent the copy fails (and
the caller merely logs it); parent directories are instead guaranteed by
the top-down traversal, which visits and creates a directory before the
files beneath it. -/
theorem claim6_amended (fs : FS) (dst : Path) (sz mt : Nat) :
    (∀ s m, lookup fs dst = some (.file s m) →
      copy2 fs dst sz mt = some (setEntry fs dst (.file sz mt))) ∧
    (lookup fs dst = none → parentDirOk fs dst = true →
      copy2 fs dst sz mt = some (setEntry fs dst (.file sz mt))) ∧
    (lookup fs dst = none → parentDirOk fs dst = false →
      copy2 fs dst sz mt = none) ∧
    (lookup (setEntry fs dst (.file sz mt)) dst = some (.file sz mt)) := by
  refine ⟨?_, ?_, ?_, ?_⟩
  · exact fun s m h => copy2_of_lookup_file fs dst sz mt s m h
  · exact fun h hp => copy2_of_lookup_none fs dst sz mt h hp
  · exact fun h hp => copy2_of_no_parent fs dst sz mt h hp
  · rw [lookup_setEntry, if_pos rfl]

/-- C6 witness: a concrete copy under an existing parent directory writes
the file with the source's size and mtime. -/
theorem claim6_amended_witness :
    copy2 [(["a"], Entry.dir)] ["a", "b"] 5 7 =
      some (setEntry [(["a"], Entry.dir)] ["a", "b"] (Entry.file 5 7)) :=
  (claim6_amended [(["a"], Entry.dir)] ["a", "b"] 5 7).2.1 rfl rfl

/-- C7 (confirmed): reporting emits the counters as `"; "`-joined
`key = value` pairs and returns every counter reset to zero, and a pass
only ever adds to the counters it is given — so the counters at any report
are exactly the counters at the previous reset plus the actions since:
each report reflects only actions taken strictly since the previous
report. -/
theorem claim7 (s : Stats) :
    write_stats_to_logging_file s =
      (String.intercalate "; "
        ["Files created = " ++ toString s.filesCreated,
         "Files changed/copied = " ++ toString s.filesChangedCopied,
         "Directories created = " ++ toString s.directoriesCreated,
         "Files deleted = " ++ toString s.filesDeleted,
         "Directories deleted = " ++ toString s.directoriesDeleted],
       Stats.zero) ∧
    (∀ (source r : FS) (lg : List LogEvent),
      (synchronize_folders source ⟨r, s, lg⟩).stats =
        Stats.add s (synchronize_folders source ⟨r, Stats.zero, lg⟩).stats) ∧
    (∀ (source r : FS) (lg : List LogEvent),
      (synchronize_folders source
          ⟨r, (write_stats_to_logging_file s).2, lg⟩).stats =
        (synchronize_folders source ⟨r, Stats.zero, lg⟩).stats) := by
  refine ⟨rfl, ?_, ?_⟩
  · intro source r lg
    have h := synchronize_folders_stats_shift source r Stats.zero lg s
    rw [Stats.add_zero_right] at h
    rw [h]
  · intro source r lg
    rfl

/-- C8 (confirmed): the sleep interval is `amount * 86400` seconds with the
days flag and `amount * 60` otherwise; if either root is missing an error
naming the missing folder is logged and the sync loop is never entered
(for no number of iterations does a loop state exist); otherwise the loop
state exists after every number of iterations, and each iteration is
exactly pass-then-report (the sleep changes no state). -/
theorem claim8 (amount : Nat) (sourceExists replicaExists : Bool)
    (sourceName replicaName : String) (source replica : FS) :
    (interval_seconds amount true = amount * 86400) ∧
    (interval_seconds amount false = amount * 60) ∧
    (¬(sourceExists = true ∧ replicaExists = true) →
      (∀ n, main_model sourceExists replicaExists sourceName replicaName
          source replica n = none) ∧
      ∃ ev ∈ (check_folders_existence sourceExists replicaExists
          sourceName replicaName).2,
        ev.isError = true ∧
        (ev = .sourceFolderMissing sourceName ∨
         ev = .replicaFolderMissing replicaName)) ∧
    (sourceExists = true → replicaExists = true →
      ∀ n, main_model sourceExists replicaExists sourceName replicaName
          source replica n =
        some (run_main_loop source ⟨replica, Stats.zero, []⟩ n)) ∧
    (∀ (st : PassState) (n : Nat),
      run_main_loop source st (n + 1) =
        run_main_loop source (loop_iteration source st) n) ∧
    (∀ st : PassState, loop_iteration source st =
      { synchronize_folders source st with
          stats :=
            (write_stats_to_logging_file (synchronize_folders source st).stats).2 }) := by
  refine ⟨?_, ?_, ?_, ?_, fun st n => rfl, fun st => rfl⟩
  · rw [interval_seconds, if_pos rfl]
    omega
  · rw [interval_seconds, if_neg (by simp)]
  · intro h
    cases sourceExists with
    | false =>
      refine ⟨fun n => by simp [main_model, check_folders_existence], ?_⟩
      exact ⟨.sourceFolderMissing sourceName,
        by simp [check_folders_existence], rfl, Or.inl rfl⟩
    | true =>
      cases replicaExists with
      | false =>
        refine ⟨fun n => by simp [main_model, check_folders_existence], ?_⟩
        exact ⟨.replicaFolderMissing replicaName,
          by simp [check_folders_existence], rfl, Or.inr rfl⟩
      | true => exact absurd ⟨rfl, rfl⟩ h
  · intro hs hr n
    subst hs; subst hr
    simp [main_model, check_folders_existence]

/-- C8 witness: concrete days interval, and a missing source folder never
enters the loop. -/
theorem claim8_witness :
    interval_seconds 3 true = 3 * 86400 ∧
    main_model false true "src" "rep" [] [] 2 = none := by
  refine ⟨(claim8 3 false true "src" "rep" [] []).1, ?_⟩
  exact ((claim8 3 false true "src" "rep" [] []).2.2.1 (by simp)).1 2

/-- C9 (confirmed): with an empty source and a replica holding directory
`old` with file `old/stale.txt`, one pass removes `old` and its contents as
a unit: the final replica is empty, `Directories deleted` is `1` and every
other counter — including `Files deleted` — is `0`, and the only log line
is the directory deletion. -/
theorem claim9 :
    synchronize_folders []
        ⟨[(["old"], Entry.dir), (["old", "stale.txt"], Entry.file 4 100)],
          Stats.zero, []⟩ =
      ⟨[], ⟨0, 0, 0, 0, 1⟩, [.deletedDirectory ["old"]]⟩ := by decide

/-- C10 (counterexample): as stated, the claim fails in its parenthetical:
with source file `p` over replica directory `p`, the attempted copy onto
the existing directory does not fail — `shutil.copy2` copies the file
*into* the directory (at `p/p`), the `Files changed/copied` counter IS
incremented, and no error is logged (the stray inner file is then deleted
by the second walk of the same pass). -/
theorem claim10_counterexample :
    (synchronize_folders [(["p"], Entry.file 5 100)]
        ⟨[(["p"], Entry.dir)], Stats.zero, []⟩).stats.filesChangedCopied = 1 ∧
    ((synchronize_folders [(["p"], Entry.file 5 100)]
        ⟨[(["p"], Entry.dir)], Stats.zero, []⟩).log.all
      fun ev => !ev.isError) = true ∧
    lookup (runLoop1 [(["p"], Entry.file 5 100)]
        ⟨[(["p"], Entry.dir)], Stats.zero, []⟩).replica ["p", "p"] =
      some (Entry.file 5 100) := by decide

/-- C10 (amended): for every path that exists under both roots with
different kinds (well-formed source, replica keys non-root), a pass leaves
a replica entry in place at that path with its original kind — both
deletion checks test only existence of the mirrored source path, so the
entry is never deleted, and the creation/copy branches never replace it (a
file copy onto the existing directory copies into the directory and is
counted as an update rather than failing). -/
theorem claim10_amended (source replica0 : FS) (s0 : Stats) (l0 : List LogEvent)
    (hwf : WF source) (hne : ∀ pr ∈ replica0, pr.1 ≠ []) :
    ∀ q es er, lookup source q = some es → lookup replica0 q = some er →
      es.isFile ≠ er.isFile →
      ∃ er2, lookup (synchronize_folders source ⟨replica0, s0, l0⟩).replica q =
          some er2 ∧ er2.isFile = er.isFile := by
  intro q es er hs hr _
  obtain ⟨e2, h2, hk2⟩ :=
    loop1_fold_preserves_kind source (keys source) ⟨replica0, s0, l0⟩ q er hr
  have hq : (lookup source q).isSome = true := by rw [hs]; rfl
  have hne1 : ∀ pr ∈ (runLoop1 source ⟨replica0, s0, l0⟩).replica, pr.1 ≠ [] :=
    loop1_fold_keys_ne source hwf.2.1 (keys source) _ hne
  rw [synchronize_folders]
  exact ⟨e2, runLoop2_preserves_present source hwf _ hne1 q e2 hq h2, hk2⟩

/-- C10 witness: source file `q` versus replica directory `q`: after a full
pass the replica still holds a directory at `q`. -/
theorem claim10_amended_witness :
    ∃ er2, lookup (synchronize_folders [(["q"], Entry.file 5 100)]
        ⟨[(["q"], Entry.dir)], Stats.zero, []⟩).replica ["q"] = some er2 ∧
      er2.isFile = Entry.dir.isFile :=
  claim10_amended [(["q"], Entry.file 5 100)] [(["q"], Entry.dir)] Stats.zero []
    (by decide) (by decide) ["q"] (Entry.file 5 100) Entry.dir rfl rfl (by decide)

end FolderSync
